import Mathlib

/-!
Shallow embedding of the geometric trajectory-extraction engine of ffeimg
(src/bin/ffe.py): separation-zone location, trajectory tracing (gradient and
shortest-path variants), width profiling, trajectory comparison and merging,
and the trajectory query interface.

Conventions of the embedding:
* Python / numpy floats are modelled by exact rationals.  Square roots
  (math.hypot, np.linalg.norm) are modelled by ratSqrt, which is exact
  whenever the radicand is the square of a rational; every concrete input
  used in the theorems below only takes square roots of perfect squares,
  where the float computation is exact as well.  Theorems quantified over
  all inputs never depend on the value of a square root.
* Images are total functions from integer coordinates to 8-bit pixel
  values; numpy array slicing (including negative-index wrap-around and
  clamping) is embedded by pySliceIdx.
* Python int() and numpy astype(int) truncate toward zero: pyTrunc.
* Code that can raise (direct numpy indexing, reductions of empty arrays,
  indexing an empty argwhere result) is embedded in Except Unit; an
  Except.error result models an uncaught Python exception.
* External collaborators whose code is not part of the repository
  (cv2.fillPoly rasterisation, scipy spline fitting) enter as explicit
  function parameters; theorems about the surrounding control flow hold
  for every instantiation.
-/

namespace FFE

/-- Equality of Except values is decidable when it is on both components. -/
instance {ε α : Type} [DecidableEq ε] [DecidableEq α] : DecidableEq (Except ε α) := fun a b =>
  match a, b with
  | .error e1, .error e2 => decidable_of_iff (e1 = e2) (by simp)
  | .error _, .ok _ => isFalse (by simp)
  | .ok _, .error _ => isFalse (by simp)
  | .ok v1, .ok v2 => decidable_of_iff (v1 = v2) (by simp)

/-- Truncation toward zero of a rational number; models Python int() applied
to a float value and numpy astype(int). -/
def pyTrunc (q : ℚ) : ℤ := if q < 0 then -((-q).floor) else q.floor

/-- The largest r at most the fuel with r squared at most n (with fuel n
this is the integer square root; structural recursion keeps it
kernel-reducible). -/
def natSqrtAux (n : ℕ) : ℕ → ℕ
  | 0 => 0
  | k + 1 => let r := natSqrtAux n k; if (r + 1) ^ 2 ≤ n then r + 1 else r

/-- Integer square root by bounded search. -/
def natSqrt (n : ℕ) : ℕ := natSqrtAux n n

/-- Rational square root: the exact nonnegative root when the radicand is the
square of a rational (the case at every concrete input used in this file),
and 0 otherwise.  Models math.sqrt, math.hypot and np.linalg.norm. -/
def ratSqrt (q : ℚ) : ℚ :=
  if q ≤ 0 then 0
  else if (natSqrt q.num.toNat) ^ 2 = q.num.toNat ∧ (natSqrt q.den) ^ 2 = q.den then
    (natSqrt q.num.toNat : ℚ) / (natSqrt q.den : ℚ)
  else 0

/-- Euclidean norm of a 2-vector, via ratSqrt. -/
def vnorm (v : ℚ × ℚ) : ℚ := ratSqrt (v.1 ^ 2 + v.2 ^ 2)

/-- Normalisation step used throughout ffe.py: divide a 2-vector by its norm
when the norm is nonzero, keep it unchanged otherwise. -/
def normVec (v : ℚ × ℚ) : ℚ × ℚ :=
  let n := vnorm v
  if n = 0 then v else (v.1 / n, v.2 / n)

/-- Python 2 round(x, 1): rounding half away from zero to one decimal. -/
def pyRound1 (q : ℚ) : ℚ :=
  if q < 0 then -(((10 * (-q) + 1/2).floor : ℚ)) / 10 else (((10 * q + 1/2).floor : ℚ)) / 10

/-- np.linspace over rationals: n evenly spaced samples from a to b inclusive. -/
def linspace (a b : ℚ) (n : ℕ) : List ℚ :=
  if n = 0 then []
  else if n = 1 then [a]
  else (List.range n).map (fun k => a + k * (b - a) / (n - 1))

/-- Index list of the Python slice a:b (step 1) on an axis of length n:
negative bounds wrap around, all bounds are clamped to the axis. -/
def pySliceIdx (n : ℕ) (a b : ℤ) : List ℕ :=
  let lo : ℕ := (if a < 0 then max (a + n) 0 else min a n).toNat
  let hi : ℕ := (if b < 0 then max (b + n) 0 else min b n).toNat
  List.range' lo (hi - lo)

/-- Elements of the Python slice l[m:0:-1]: indices min(m, len-1) down to 1. -/
def pySliceRevTo1 {α : Type} [Inhabited α] (l : List α) (m : ℕ) : List α :=
  let s := min m (l.length - 1)
  ((List.range' 1 s).reverse).map (fun i => l.getD i default)

/-- Squared euclidean distance between two integer points. -/
def sqDist (p : ℤ × ℤ) (q : ℤ × ℤ) : ℤ := (p.1 - q.1) ^ 2 + (p.2 - q.2) ^ 2

/-- Stable insertion of an element into an ascending list: placed after all
elements that compare less than or equal, as Python stable sorting does. -/
def insertLE {α : Type} (le : α → α → Bool) (x : α) : List α → List α
  | [] => [x]
  | y :: ys => if le y x then y :: insertLE le x ys else x :: y :: ys

/-- Stable ascending insertion sort, modelling Python list.sort with a key. -/
def stableSort {α : Type} (le : α → α → Bool) : List α → List α
  | [] => []
  | x :: xs => insertLE le x (stableSort le xs)

/-- ffe.sortCoordinatesByDistanceToPoint: stable sort of coordinate pairs by
euclidean distance to a reference point.  Sorting by the float distance is
sorting by the squared integer distance, which is what is embedded. -/
def sortCoordinatesByDistanceToPoint (coords : List (ℤ × ℤ)) (p : ℤ × ℤ) : List (ℤ × ℤ) :=
  stableSort (fun a b => decide (sqDist a p ≤ sqDist b p)) coords

/-- Maximal runs of consecutive integers of a list, in order
(itertools.groupby on index minus value, as in ffe.findMiddleOfConsecutiveNumbers). -/
def consecRuns : List ℤ → List (List ℤ)
  | [] => []
  | x :: xs =>
    match consecRuns xs with
    | [] => [[x]]
    | (y :: ys) :: rest => if x + 1 = y then (x :: y :: ys) :: rest else [x] :: (y :: ys) :: rest
    | [] :: rest => [x] :: rest

/-- ffe.findMiddleOfConsecutiveNumbers: for each maximal run of consecutive
integers, the element at position len/2 of the run together with the length
of the run. -/
def findMiddleOfConsecutiveNumbers (numbers : List ℤ) : List (ℤ × ℕ) :=
  (consecRuns numbers).map (fun g => (g.getD (g.length / 2) 0, g.length))

/-- scipy.signal.argrelextrema with comparator np.less_equal, given order and
the default clip mode: indices whose value is less than or equal to every
value within the given order of positions, with indices clipped to the ends. -/
def argrelLE (data : List ℤ) (ord : ℕ) : List ℕ :=
  let n := data.length
  let att : ℕ → ℤ := fun i => data.getD (min i (n - 1)) 0
  (List.range n).filter (fun i =>
    ((List.range ord).map (· + 1)).all (fun o =>
      decide (att i ≤ att (i + o)) && decide (att i ≤ att (i - o))))

/-- A grey-scale image: a total pixel function together with its shape.
px takes (row, column); pixels are only meaningful at 0 ≤ y < height,
0 ≤ x < width. -/
structure Image where
  width : ℕ
  height : ℕ
  px : ℤ → ℤ → ℕ

/-- A trajectory point (x, y, width); widths are rational because the width
profiler stores float widths. -/
abbrev P3 := ℤ × ℤ × ℚ

/-- A trajectory: ordered list of points with widths. -/
abbrev Traj := List P3

/-- The (x, y) coordinates of a trajectory, widths stripped. -/
def coordsOf (t : Traj) : List (ℤ × ℤ) := t.map (fun p => (p.1, p.2.1))

section SeparationZone

/-- One hierarchy entry as returned by cv2.findContours:
(next sibling, previous sibling, first child, parent). -/
abbrev HierEntry := ℤ × ℤ × ℤ × ℤ

variable {α : Type} [Inhabited α]

/-- Parent index field of a hierarchy entry. -/
def hParent (h : HierEntry) : ℤ := h.2.2.2

/-- First-child index field of a hierarchy entry. -/
def hChild (h : HierEntry) : ℤ := h.2.2.1

/-- Parent area after the zero-area adjustment of findSeparationZoneBoundaries
(a parent of area 0.0 is replaced by 1.0 before the threshold test). -/
def areaParentAdj (area : α → ℚ) (contours : List α) (i : ℕ) : ℚ :=
  let a := area (contours.getD i default)
  if a = 0 then 1 else a

/-- The outer-loop admission test of findSeparationZoneBoundaries: contour i
is a candidate parent iff it has no parent, has a child, and its (adjusted)
area is at least the threshold. -/
def sepOuterOK (area : α → ℚ) (contours : List α) (hierarchy : List HierEntry)
    (threshold : ℚ) (i : ℕ) : Bool :=
  let h := hierarchy.getD i (-1, -1, -1, -1)
  (hParent h == -1) && (hChild h != -1) &&
    decide (threshold ≤ areaParentAdj area contours i)

/-- The inner-loop admission test: contour j is an accepted child of parent i
iff its parent field is i, its area is at least the threshold, and the area
ratio child/parent rounded to one decimal lies in the tolerance window. -/
def sepChildOK (area : α → ℚ) (contours : List α) (hierarchy : List HierEntry)
    (threshold threshratio variance : ℚ) (i j : ℕ) : Bool :=
  let h := hierarchy.getD j (-1, -1, -1, -1)
  let areachild := area (contours.getD j default)
  (hParent h == (i : ℤ)) && decide (threshold ≤ areachild) &&
    (let r := pyRound1 (areachild / areaParentAdj area contours i)
     decide (threshratio - variance ≤ r) && decide (r ≤ threshratio + variance))

/-- The outer loop of findSeparationZoneBoundaries over a list of parent
indices: for the first candidate parent whose inner scan (a first-match scan
over all contour indices) accepts a child, return the pair. -/
def sepScan (area : α → ℚ) (contours : List α) (hierarchy : List HierEntry)
    (threshold threshratio variance : ℚ) : List ℕ → Option (ℕ × ℕ)
  | [] => none
  | i :: rest =>
    if sepOuterOK area contours hierarchy threshold i then
      match (List.range contours.length).find?
          (sepChildOK area contours hierarchy threshold threshratio variance i) with
      | some j => some (i, j)
      | none => sepScan area contours hierarchy threshold threshratio variance rest
    else sepScan area contours hierarchy threshold threshratio variance rest

/-- ffe.findSeparationZoneBoundaries: hierarchy is the inner list of the
cv2 return value; area abstracts cv2.contourArea.  Returns the first
(outer, inner) index pair accepted by the scans, and (-1, -1) when the
lengths disagree or nothing is found. -/
def findSeparationZoneBoundaries (area : α → ℚ) (contours : List α)
    (hierarchy : List HierEntry) (threshold threshratio variance : ℚ) : ℤ × ℤ :=
  if contours.length ≠ hierarchy.length then (-1, -1)
  else
    match sepScan area contours hierarchy threshold threshratio variance
        (List.range contours.length) with
    | some (i, j) => ((i : ℤ), (j : ℤ))
    | none => (-1, -1)

/-- A pair (i, j) qualifies for the zone scan: both indices in range, i an
admitted parent, j an admitted child of i. -/
def sepQualify (area : α → ℚ) (contours : List α) (hierarchy : List HierEntry)
    (threshold threshratio variance : ℚ) (i j : ℕ) : Prop :=
  i < contours.length ∧ j < contours.length ∧
    sepOuterOK area contours hierarchy threshold i = true ∧
    sepChildOK area contours hierarchy threshold threshratio variance i j = true

instance (area : α → ℚ) (contours : List α) (hierarchy : List HierEntry)
    (threshold threshratio variance : ℚ) (i j : ℕ) :
    Decidable (sepQualify area contours hierarchy threshold threshratio variance i j) := by
  unfold sepQualify; infer_instance

end SeparationZone

/-- Minimum of a list via foldl, as numpy min / Python min on a nonempty
list; default on the empty list. -/
def min1 {α : Type} [Inhabited α] [Min α] : List α → α
  | [] => default
  | x :: xs => xs.foldl min x

/-- Maximum of a list via foldl, as numpy max / Python max on a nonempty
list; default on the empty list. -/
def max1 {α : Type} [Inhabited α] [Max α] : List α → α
  | [] => default
  | x :: xs => xs.foldl max x

/-- The 90 degree rotation [[0,-1],[1,0]] applied to a 2-vector. -/
def rot90 (v : ℚ × ℚ) : ℚ × ℚ := (-v.2, v.1)

/-- Two-dimensional cross product, as np.cross on 2-vectors. -/
def cross2 (a b : ℚ × ℚ) : ℚ := a.1 * b.2 - a.2 * b.1

/-- ffe.getSkinOfTrajectory: the closed outline polygon of a trajectory.
For every point, a unit skin vector perpendicular-ish to the local tangent
is built from the difference of consecutive unit slopes ((anti)parallel
slopes fall back to the rotated last slope) and the two offset points at
half width are appended to the left/right side according to the sign of the
cross product; finally left ++ reversed right. -/
def getSkinOfTrajectory (t : Traj) : List (ℤ × ℤ) :=
  if t.length < 2 then []
  else
    let p0 := t.getD 0 (0, 0, 0)
    let p1 := t.getD 1 (0, 0, 0)
    let ls0 := normVec (((p1.1 - p0.1 : ℤ) : ℚ), ((p1.2.1 - p0.2.1 : ℤ) : ℚ))
    let st := (List.range t.length).foldl
      (fun (st : (ℚ × ℚ) × List (ℤ × ℤ) × List (ℤ × ℤ)) i =>
        let lastslope := st.1
        let pt := t.getD i (0, 0, 0)
        let slope := if i < t.length - 1 then
            let pn := t.getD (i + 1) (0, 0, 0)
            normVec (((pn.1 - pt.1 : ℤ) : ℚ), ((pn.2.1 - pt.2.1 : ℤ) : ℚ))
          else lastslope
        let sv0 := normVec (slope.1 - lastslope.1, slope.2 - lastslope.2)
        let sv := if cross2 slope lastslope = 0 then rot90 lastslope else sv0
        let pA := (pyTrunc ((pt.1 : ℚ) + sv.1 * pt.2.2 / 2),
                   pyTrunc ((pt.2.1 : ℚ) + sv.2 * pt.2.2 / 2))
        let pB := (pyTrunc ((pt.1 : ℚ) - sv.1 * pt.2.2 / 2),
                   pyTrunc ((pt.2.1 : ℚ) - sv.2 * pt.2.2 / 2))
        if 0 < cross2 slope sv then (slope, st.2.1 ++ [pA], st.2.2 ++ [pB])
        else (slope, st.2.1 ++ [pB], st.2.2 ++ [pA]))
      (ls0, [], [])
    st.2.1 ++ st.2.2.reverse

/-- The expanded point list of ffe.calculateTrajectoryRectangle: for every
trajectory point the two opposite corners of the bounding square of its
width circle. -/
def rectPoints (t : Traj) : List (ℤ × ℤ) :=
  t.flatMap (fun p =>
    [(p.1 - pyTrunc (p.2.2 / 2) - 1, p.2.1 - pyTrunc (p.2.2 / 2) - 1),
     (p.1 + pyTrunc (p.2.2 / 2) + 1, p.2.1 + pyTrunc (p.2.2 / 2) + 1)])

/-- ffe.calculateTrajectoryRectangle: top-left and bottom-right corner of the
cv2.boundingRect of the expanded points (for integer points the bounding
rectangle is [min, max+1) in both axes). -/
def calculateTrajectoryRectangle (t : Traj) : List (ℤ × ℤ) :=
  let pts := rectPoints t
  if pts = [] then []
  else
    let minx := min1 (pts.map Prod.fst)
    let maxx := max1 (pts.map Prod.fst)
    let miny := min1 (pts.map Prod.snd)
    let maxy := max1 (pts.map Prod.snd)
    [(minx, miny), (minx + (maxx - minx + 1), miny + (maxy - miny + 1))]

/-- An abstract polygon rasteriser, standing for the external collaborator
cv2.fillPoly: the set of pixels covered by a filled polygon (before clipping
to a canvas). -/
abbrev FillFn := List (ℤ × ℤ) → Finset (ℤ × ℤ)

/-- Pixels of a filled polygon that fall on a width x height canvas. -/
def renderOn (fill : FillFn) (w h : ℤ) (poly : List (ℤ × ℤ)) : Finset (ℤ × ℤ) :=
  (fill poly).filter (fun p => 0 ≤ p.1 ∧ p.1 < w ∧ 0 ≤ p.2 ∧ p.2 < h)

/-- The canvas-clipped pixel set of one trajectory inside
calculateTrajectoriesOverlap: its skin, shifted by the top-left corner of
the common bounding rectangle, rasterised on the common canvas. -/
def overlapCover (fill : FillFn) (trac1 trac2 here : Traj) : Finset (ℤ × ℤ) :=
  let rect := calculateTrajectoryRectangle (trac1 ++ trac2)
  let r0 := rect.getD 0 (0, 0)
  let r1 := rect.getD 1 (0, 0)
  renderOn fill (r1.1 - r0.1) (r1.2 - r0.2)
    ((getSkinOfTrajectory here).map (fun p => (p.1 - r0.1, p.2 - r0.2)))

/-- ffe.calculateTrajectoriesOverlap: render both skins (green, red) on a
common canvas, count pixels of each colour and of the overlap (yellow), and
return yellow / min(green, red); 0 on empty inputs, empty skins, empty
renders or empty overlap. -/
def calculateTrajectoriesOverlap (fill : FillFn) (trac1 trac2 : Traj) : ℚ :=
  if trac1 = [] ∨ trac2 = [] then 0
  else if getSkinOfTrajectory trac1 = [] ∨ getSkinOfTrajectory trac2 = [] then 0
  else
    let cover1 := overlapCover fill trac1 trac2 trac1
    let cover2 := overlapCover fill trac1 trac2 trac2
    let green := cover1.card
    let red := cover2.card
    if min green red = 0 then 0
    else
      let yellow := (cover1 ∩ cover2).card
      if yellow = 0 then 0 else (yellow : ℚ) / (min green red : ℚ)

/-- Euclidean distance between two rational points, via ratSqrt. -/
def ptDist (p q : ℚ × ℚ) : ℚ := ratSqrt ((p.1 - q.1) ^ 2 + (p.2 - q.2) ^ 2)

/-- ffe.calculateTrajectoriesDistanceHausdorff: symmetric Hausdorff distance
of the two coordinate sets (max over the two directed max-of-min distances
of the scipy cdist matrix); 0 when either input is empty. -/
def calculateTrajectoriesDistanceHausdorff (trac1 trac2 : Traj) : ℚ :=
  if trac1 = [] ∨ trac2 = [] then 0
  else
    let pts1 := trac1.map (fun p => ((p.1 : ℚ), (p.2.1 : ℚ)))
    let pts2 := trac2.map (fun p => ((p.1 : ℚ), (p.2.1 : ℚ)))
    let rowmins := pts1.map (fun p => min1 (pts2.map (fun q => ptDist p q)))
    let colmins := pts2.map (fun q => min1 (pts1.map (fun p => ptDist p q)))
    max (max1 rowmins) (max1 colmins)

/-- The duplicate test of ffe.combineTrajectories: Hausdorff distance at most
the bias when useHausdorff is set, else overlap at least maxoverlap. -/
def mergeCriteria (fill : FillFn) (maxoverlap : ℚ) (useHausdorff : Bool)
    (hausdorffbias : ℚ) (item finalitem : Traj) : Bool :=
  if useHausdorff then
    decide (calculateTrajectoriesDistanceHausdorff item finalitem ≤ hausdorffbias)
  else decide (maxoverlap ≤ calculateTrajectoriesOverlap fill item finalitem)

/-- Replace the first element equal to old by new, as the Python idiom
finallist[finallist.index(finalitem)] = item. -/
def replaceFirstEq : List Traj → Traj → Traj → List Traj
  | [], _, _ => []
  | f :: fs, old, new => if f = old then new :: fs else f :: replaceFirstEq fs old new

/-- One pass of the merge loop body of ffe.combineTrajectories: scan the
result list for the first accepted duplicate of item; if none, append item;
if one is found, replace it by item only when item has strictly more
points. -/
def mergeStep (crit : Traj → Traj → Bool) (finallist : List Traj) (item : Traj) : List Traj :=
  match finallist.find? (fun f => crit item f) with
  | none => finallist ++ [item]
  | some f => if f.length < item.length then replaceFirstEq finallist f item else finallist

/-- The while-loop of ffe.combineTrajectories, with the working list given
in pop order (Python list.pop removes from the end). -/
def combineLoop (crit : Traj → Traj → Bool) : List Traj → List Traj → List Traj
  | [], finallist => finallist
  | w :: ws, finallist => combineLoop crit ws (mergeStep crit finallist w)

/-- ffe.combineTrajectories: pool both lists, repeatedly pop the last item
and merge it into the result list under the selected duplicate criterion. -/
def combineTrajectories (fill : FillFn) (traclist1 traclist2 : List Traj)
    (maxoverlap : ℚ) (useHausdorff : Bool) (hausdorffbias : ℚ) : List Traj :=
  combineLoop (mergeCriteria fill maxoverlap useHausdorff hausdorffbias)
    ((traclist1 ++ traclist2).reverse) []

/-- The density image shared by findPathOnImage and findWidthOfTrajectory:
at every pixel at least densityrad away from the border whose own value is
nonzero, the box sum of the 2r x 2r window anchored one radius up and left;
0 everywhere else (the loop ranges never write into the border band).
Indexing outside 0 ≤ y < height, 0 ≤ x < width is not meaningful (numpy
would wrap or raise); no theorem below applies it there. -/
def densityAt (img : Image) (r : ℕ) (y x : ℤ) : ℕ :=
  if (r : ℤ) ≤ x ∧ x < (img.width : ℤ) - r ∧ (r : ℤ) ≤ y ∧ y < (img.height : ℤ) - r ∧
      img.px y x ≠ 0 then
    (((List.range (2 * r)).map (fun dy =>
      ((List.range (2 * r)).map (fun dx => img.px (y - r + dy) (x - r + dx))).sum)).sum)
  else 0

/-- A heap node of the shortest-path search: (distance, x, y). -/
abbrev DNode := ℤ × ℤ × ℤ

/-- Lexicographic comparison of heap nodes, the order heapq pops tuples in. -/
def nodeLE (a b : DNode) : Bool :=
  decide (a.1 < b.1) ||
    (a.1 == b.1 && (decide (a.2.1 < b.2.1) || (a.2.1 == b.2.1 && decide (a.2.2 ≤ b.2.2))))

/-- Remove the first occurrence of a node from the queue
(del queue[queue.index(item)]). -/
def eraseFirstNode : List DNode → DNode → List DNode
  | [], _ => []
  | q :: qs, n => if q = n then qs else q :: eraseFirstNode qs n

/-- Pop the smallest node of the queue in heap order.  The queue is embedded
as the multiset of its entries; heapq.heappop always returns the
lexicographically smallest tuple. -/
def popMinNode (queue : List DNode) : Option (DNode × List DNode) :=
  match queue with
  | [] => none
  | q :: qs =>
    let m := qs.foldl (fun m n => if nodeLE m n then m else n) q
    some (m, eraseFirstNode queue m)

/-- The Dijkstra main loop of ffe.findPathOnImage.  points holds the (y, x)
pairs above the bias in row-major order; the tracker maps (y, x) to the
points-index of the predecessor.  Each iteration removes exactly one node
net (one pop; every relaxation deletes and re-inserts), so fuel equal to the
initial queue length makes the fuel-free and fuelled loops agree. -/
def dijkstraLoop (density : ℤ → ℤ → ℕ) (maxintensity : ℕ) (points : List (ℤ × ℤ))
    (endpoint : ℤ × ℤ) : ℕ → List DNode → ((ℤ × ℤ) → ℤ) → ((ℤ × ℤ) → ℤ)
  | 0, _, tracker => tracker
  | fuel + 1, queue, tracker =>
    match popMinNode queue with
    | none => tracker
    | some (fi, rest) =>
      if fi.2.1 = endpoint.1 ∧ fi.2.2 = endpoint.2 then tracker
      else
        let neighbours := rest.filter (fun n =>
          natSqrt (((n.2.1 - fi.2.1) ^ 2 + (n.2.2 - fi.2.2) ^ 2).toNat) == 1)
        let fidx : ℤ := points.findIdx (fun p => p.2 == fi.2.1 && p.1 == fi.2.2)
        let st := neighbours.foldl (fun (st : List DNode × ((ℤ × ℤ) → ℤ)) nb =>
          let cost : ℤ := (maxintensity : ℤ) - density nb.2.2 nb.2.1
          let alt := fi.1 + cost
          if alt < nb.1 then
            (eraseFirstNode st.1 nb ++ [(alt, nb.2.1, nb.2.2)],
             fun p => if p = (nb.2.2, nb.2.1) then fidx else st.2 p)
          else st) (rest, tracker)
        dijkstraLoop density maxintensity points endpoint fuel st.1 st.2

/-- The backtracking loop of ffe.findPathOnImage: follow tracker indices from
the end point back to the start, keeping every everyotherpoint-th point and
always the start point.  The fuel (number of pixels plus one at the call
site) covers every acyclic predecessor chain; a cyclic chain would not
terminate in Python and is not reached by any theorem below. -/
def backtrackLoop (points : List (ℤ × ℤ)) (everyotherpoint : ℕ) (startpoint : ℤ × ℤ)
    (tracker : (ℤ × ℤ) → ℤ) : ℕ → (ℤ × ℤ) → ℕ → List (ℤ × ℤ) → List (ℤ × ℤ)
  | 0, _, _, path => path
  | fuel + 1, current, n, path =>
    if tracker current ≠ -1 ∧ ¬(current.2 = startpoint.1 ∧ current.1 = startpoint.2) then
      let cur2 := points.getD (tracker current).toNat (0, 0)
      let path2 := if n % everyotherpoint = 0 ∨ (cur2.2 = startpoint.1 ∧ cur2.1 = startpoint.2)
        then (cur2.2, cur2.1) :: path else path
      backtrackLoop points everyotherpoint startpoint tracker fuel cur2 (n + 1) path2
    else path

/-- ffe.findPathOnImage: density field, zero-density early exit for start or
end point, Dijkstra search over the pixels above the bias with cost
maxintensity minus neighbour density, backtracking, and the final dump of
one-point paths. -/
def findPathOnImage (img : Image) (startpoint endpoint : ℤ × ℤ) (bias : ℤ)
    (everyotherpoint : ℕ) (densityrad : ℕ) : List (ℤ × ℤ) :=
  let density := densityAt img densityrad
  if density startpoint.2 startpoint.1 = 0 ∨ density endpoint.2 endpoint.1 = 0 then []
  else
    let infinite : ℤ := pyTrunc (ratSqrt (((img.height : ℚ)) ^ 2 + ((img.width : ℚ)) ^ 2)
      * 100000000)
    let points : List (ℤ × ℤ) := (List.range img.height).flatMap (fun y =>
      (List.range img.width).filterMap (fun x =>
        if bias < (density y x : ℤ) then some ((y : ℤ), (x : ℤ)) else none))
    let maxintensity : ℕ := max1 ((List.range img.height).flatMap (fun y =>
      (List.range img.width).map (fun x => density y x)))
    let queue : List DNode := points.map (fun p =>
      (if p.2 = startpoint.1 ∧ p.1 = startpoint.2 then 0 else infinite, p.2, p.1))
    let tracker0 : (ℤ × ℤ) → ℤ := fun p => if p = (endpoint.2, endpoint.1) then -1 else 0
    let tracker := dijkstraLoop density maxintensity points endpoint
      queue.length queue tracker0
    let tracker1 : (ℤ × ℤ) → ℤ := fun p =>
      if p = (startpoint.2, startpoint.1) then -1 else tracker p
    if tracker1 (endpoint.2, endpoint.1) = -1 then []
    else
      let path := backtrackLoop points everyotherpoint startpoint tracker1
        (img.height * img.width + 1) (endpoint.2, endpoint.1) 0 [(endpoint.1, endpoint.2)]
      if path.length < 2 then [] else path

/-- One start/end attempt of ffe.getTrajectoriesFromImageDijkstra: snap a
zero-intensity start point to the nearest pixel above the bias when it is
within diameter times the variance factor (Python raises IndexError when no
pixel is above the bias, embedded as Except.error), then search the path
from the endpoint to the (possibly snapped) start point. -/
def dijkstraOne (img : Image) (bias : ℤ) (everyotherpoint densityrad : ℕ)
    (spvariancefactor : ℚ) (startpoint endpoint : P3) : Except Unit (List (ℤ × ℤ)) := do
  let sp ← (if img.px startpoint.2.1 startpoint.1 = 0 then
      let pts : List (ℤ × ℤ) := (List.range img.height).flatMap (fun y =>
        (List.range img.width).filterMap (fun x =>
          if bias < (img.px y x : ℤ) then some ((x : ℤ), (y : ℤ)) else none))
      match sortCoordinatesByDistanceToPoint pts (startpoint.1, startpoint.2.1) with
      | [] => (.error () : Except Unit P3)
      | p0 :: _ =>
        if ratSqrt (((startpoint.1 - p0.1 : ℤ) : ℚ) ^ 2 + ((startpoint.2.1 - p0.2 : ℤ) : ℚ) ^ 2)
            ≤ startpoint.2.2 * spvariancefactor then
          .ok (p0.1, p0.2, startpoint.2.2)
        else .ok startpoint
    else .ok startpoint)
  .ok (findPathOnImage img (endpoint.1, endpoint.2.1) (sp.1, sp.2.1) bias
    everyotherpoint densityrad)

/-- The inner-loop body of ffe.getTrajectoriesFromImageDijkstra: search one
start/end pair and append the reversed path with standard width 10 when it
is nonempty. -/
def dijkstraStepStart (img : Image) (bias : ℤ) (everyotherpoint densityrad : ℕ)
    (spvariancefactor : ℚ) (e : P3) (acc2 : List Traj) (s : P3) : Except Unit (List Traj) := do
  let path ← dijkstraOne img bias everyotherpoint densityrad spvariancefactor s e
  if path.length > 0 then
    .ok (acc2 ++ [path.reverse.map (fun p => (p.1, p.2, (10 : ℚ)))])
  else .ok acc2

/-- The outer-loop body of ffe.getTrajectoriesFromImageDijkstra: try every
start point for one endpoint. -/
def dijkstraStepEnd (img : Image) (startpoints : List P3) (bias : ℤ)
    (everyotherpoint densityrad : ℕ) (spvariancefactor : ℚ) (acc : List Traj)
    (e : P3) : Except Unit (List Traj) :=
  startpoints.foldlM (dijkstraStepStart img bias everyotherpoint densityrad
    spvariancefactor e) acc

/-- ffe.getTrajectoriesFromImageDijkstra: for every endpoint and every start
point, search a path and keep the nonempty ones, reversed and given the
standard width 10. -/
def getTrajectoriesFromImageDijkstra (img : Image) (startpoints endpoints : List P3)
    (bias : ℤ) (everyotherpoint densityrad : ℕ) (spvariancefactor : ℚ) :
    Except Unit (List Traj) :=
  if max1 ((List.range img.height).flatMap (fun y =>
      (List.range img.width).map (fun x => img.px y x))) = 0 then .ok []
  else
    endpoints.foldlM (dijkstraStepEnd img startpoints bias everyotherpoint densityrad
      spvariancefactor) []

/-- A materialised rectangular slice image[y0:y0+g, x0:x0+g] with numpy
slice semantics (negative bounds wrap, all bounds clamp). -/
def sliceImage (img : Image) (y0 x0 : ℤ) (g : ℕ) : List (List ℕ) :=
  (pySliceIdx img.height y0 (y0 + g)).map (fun yy =>
    (pySliceIdx img.width x0 (x0 + g)).map (fun xx => img.px yy xx))

/-- Direct numpy indexing of a materialised 2-D slice; out of bounds raises
in Python, embedded as Except.error. -/
def idx2 (sl : List (List ℕ)) (i j : ℕ) : Except Unit ℕ :=
  match sl.get? i with
  | none => .error ()
  | some row => match row.get? j with
    | none => .error ()
    | some v => .ok v

/-- np.transpose(slice.nonzero()): (row, column) pairs of nonzero entries in
row-major order. -/
def nonzeroPairs (sl : List (List ℕ)) : List (ℤ × ℤ) :=
  sl.enum.flatMap (fun rc =>
    rc.2.enum.filterMap (fun cv =>
      if cv.2 ≠ 0 then some ((rc.1 : ℤ), (cv.1 : ℤ)) else none))

/-- Positions achieving the maximum of a 2-D array, row-major
(np.transpose(np.where(d == d.max()))). -/
def maxPairs (d : List (List ℕ)) : List (ℤ × ℤ) :=
  let m := max1 (d.flatMap id)
  d.enum.flatMap (fun rc =>
    rc.2.enum.filterMap (fun cv =>
      if cv.2 = m then some ((rc.1 : ℤ), (cv.1 : ℤ)) else none))

/-- The local density image of the gradient tracer: a (g-2r) x (g-2r) array
whose entry (y, x) is, when slice[y, x] is nonzero, the (clipping, possibly
wrapping) box sum slice[y-r:y+r, x-r:x+r] floor-divided by (2r+1) squared.
Direct indexing of a clipped slice can raise, hence Except. -/
def sliceDensity (sl : List (List ℕ)) (g r : ℕ) : Except Unit (List (List ℕ)) :=
  let cols := (sl.getD 0 []).length
  (List.range (g - 2 * r)).mapM (fun y =>
    (List.range (g - 2 * r)).mapM (fun x => do
      let v ← idx2 sl y x
      if v ≠ 0 then
        let rIdx := pySliceIdx sl.length ((y : ℤ) - r) ((y : ℤ) + r)
        let cIdx := pySliceIdx cols ((x : ℤ) - r) ((x : ℤ) + r)
        let s := (rIdx.map (fun rr => (cIdx.map (fun cc =>
          (sl.getD rr []).getD cc 0)).sum)).sum
        pure (s / (2 * r + 1) ^ 2)
      else pure 0))

/-- The while-loop of ffe.getTrajectoriesFromImage for one endpoint, with the
executed iteration count made explicit.  expQ abstracts math.exp in the
inlet-attraction term.  The loop body increments i every iteration and stops
once i exceeds maxiteration, so fuel maxiteration + 2 is never exhausted;
empty or all-zero windows break out early, and invalid direct indexing or an
empty density window raise in Python (Except.error). -/
def traceLoop (img : Image) (expQ : ℚ → ℚ) (startpoints : List P3)
    (maxattraction : ℚ) (g r maxiteration : ℕ) :
    ℕ → List P3 → (ℚ × ℚ) → ℕ → Bool → ℕ × Except Unit (List P3)
  | 0, traj, _, i, _ => (i, .ok traj)
  | fuel + 1, traj, slope, i, run =>
    if run = false then (i, .ok traj)
    else
      let last := traj.getD (traj.length - 1) (0, 0, 0)
      let tp0 : ℤ × ℤ := (last.1 + pyTrunc (slope.1 * g), last.2.1 + pyTrunc (slope.2 * g))
      let tl0 : ℤ × ℤ := (tp0.1 - (g / 2 : ℕ), tp0.2 - (g / 2 : ℕ))
      let sl0 := sliceImage img tl0.2 tl0.1 g
      if sl0 = [] ∨ sl0.getD 0 [] = [] then (i, .ok traj)
      else if max1 (sl0.flatMap id) = 0 then (i, .ok traj)
      else
        match idx2 sl0 (g / 2) (g / 2) with
        | .error _ => (i, .error ())
        | .ok cv =>
          let rel : Except Unit ((ℤ × ℤ) × (ℤ × ℤ) × List (List ℕ)) :=
            if cv = 0 then
              match sortCoordinatesByDistanceToPoint (nonzeroPairs sl0)
                  ((g / 2 : ℕ), (g / 2 : ℕ)) with
              | [] => .error ()
              | p :: _ =>
                let tp1 : ℤ × ℤ := (tl0.1 + p.2, tl0.2 + p.1)
                let tl1 : ℤ × ℤ := (tp1.1 - (g / 2 : ℕ), tp1.2 - (g / 2 : ℕ))
                .ok (tp1, tl1, sliceImage img tl1.2 tl1.1 g)
            else .ok (tp0, tl0, sl0)
          match rel with
          | .error _ => (i, .error ())
          | .ok (_, tl, sl) =>
            match sliceDensity sl g r with
            | .error _ => (i, .error ())
            | .ok dens =>
              if dens = [] then (i, .error ())
              else
                match sortCoordinatesByDistanceToPoint (maxPairs dens)
                    ((g / 2 : ℕ), (g / 2 : ℕ)) with
                | [] => (i, .error ())
                | mv :: _ =>
                  let tp2 : ℤ × ℤ := (tl.1 + r + mv.2, tl.2 + r + mv.1)
                  let slope1 := normVec (((tp2.1 - last.1 : ℤ) : ℚ), ((tp2.2 - last.2.1 : ℤ) : ℚ))
                  let slope2 := startpoints.foldl (fun s inlet =>
                    let dhalf := ((inlet.2.2 + (g : ℚ)) / 2) / (1 / 10)
                    let distance := ratSqrt (((tp2.1 - inlet.1 : ℤ) : ℚ) ^ 2 +
                      ((tp2.2 - inlet.2.1 : ℤ) : ℚ) ^ 2)
                    let attrv := normVec (((inlet.1 - tp2.1 : ℤ) : ℚ), ((inlet.2.1 - tp2.2 : ℤ) : ℚ))
                    let attraction := maxattraction * expQ (-distance / dhalf)
                    normVec (s.1 + attraction * attrv.1, s.2 + attraction * attrv.2)) slope1
                  let st := startpoints.foldl (fun (st : List P3 × Bool) pt =>
                    let dist := ratSqrt (((tp2.1 - pt.1 : ℤ) : ℚ) ^ 2 +
                      ((tp2.2 - pt.2.1 : ℤ) : ℚ) ^ 2)
                    if dist ≤ pt.2.2 / 2 + g then (st.1 ++ [pt], false) else st)
                    (traj ++ [(tp2.1, tp2.2, (10 : ℚ))], run)
                  let i2 := i + 1
                  let run2 := if maxiteration < i2 then false else st.2
                  traceLoop img expQ startpoints maxattraction g r maxiteration
                    fuel st.1 slope2 i2 run2

/-- One endpoint of ffe.getTrajectoriesFromImage: start from the endpoint
with the flow direction as initial slope and run the tracing loop.  Returns
the executed iteration count together with the traced point list. -/
def traceFromEndpoint (img : Image) (expQ : ℚ → ℚ) (startpoints : List P3)
    (flow : ℚ × ℚ) (maxiteration : ℕ) (gradientfactor : ℚ) (r : ℕ)
    (maxattraction : ℚ) (endpoint : P3) : ℕ × Except Unit (List P3) :=
  let g : ℕ := (max (pyTrunc (gradientfactor * (max img.width img.height : ℕ))) 2).toNat
  traceLoop img expQ startpoints maxattraction g r maxiteration
    (maxiteration + 2) [endpoint] flow 0 true

/-- The per-endpoint body of ffe.getTrajectoriesFromImage: trace, and keep
the reversed result only when it has more than one point. -/
def gradStep (img : Image) (expQ : ℚ → ℚ) (startpoints : List P3) (flow : ℚ × ℚ)
    (maxiteration : ℕ) (gradientfactor : ℚ) (r : ℕ) (maxattraction : ℚ)
    (acc : List Traj) (e : P3) : Except Unit (List Traj) :=
  match (traceFromEndpoint img expQ startpoints flow maxiteration gradientfactor r
      maxattraction e).2 with
  | .error _ => .error ()
  | .ok traj => .ok (if 1 < traj.length then acc ++ [traj.reverse] else acc)

/-- ffe.getTrajectoriesFromImage: trace from every endpoint; keep a result
only when it has more than one point, reversed to read inlet to outlet. -/
def getTrajectoriesFromImage (img : Image) (expQ : ℚ → ℚ) (startpoints endpoints : List P3)
    (flow : ℚ × ℚ) (maxiteration : ℕ) (gradientfactor : ℚ) (r : ℕ)
    (maxattraction : ℚ) : Except Unit (List Traj) :=
  endpoints.foldlM (gradStep img expQ startpoints flow maxiteration gradientfactor r
    maxattraction) []

/-- The tail of the per-point body of ffe.findWidthOfTrajectory, from the
empty-line check on: skip when the sampled line is empty (keeping the old
lastslope, as the continue in the source jumps over the update); truncate
each half at its first zero, raising when a half has no zero at all; find
the local-minimum groups, flatten values outside the group around the
centre to the base line; let the abstract FWHM collaborator (the scipy
spline block) turn the profile into the width appended with the point. -/
def fwTail (fwhm : List ℤ → ℕ → ℚ) (pt : P3) (lastslope slope : ℚ × ℚ)
    (st : (ℚ × ℚ) × List P3) (maxwidth : ℕ) (wvalues : List ℤ) :
    Except Unit ((ℚ × ℚ) × List P3) :=
  if wvalues = [] then .ok (lastslope, st.2)
  else
    let wvaluesleft := pySliceRevTo1 wvalues maxwidth
    let wvaluesright := wvalues.drop maxwidth
    match wvaluesleft.findIdx? (· == 0) with
    | none => .error ()
    | some indexleft =>
      match wvaluesright.findIdx? (· == 0) with
      | none => .error ()
      | some indexright =>
        let wvNew := pySliceRevTo1 wvaluesleft indexleft ++ wvaluesright.take (indexright + 1)
        let mid := indexleft
        let indices : List ℤ :=
          (findMiddleOfConsecutiveNumbers ((argrelLE wvNew 3).map (fun k => (k : ℤ)))).map
            (fun gr => gr.1)
        let wv2 := (List.range (indices.length - 1)).foldl (fun wv gi =>
          let lo := indices.getD gi 0
          let hi := indices.getD (gi + 1) 0
          if lo ≤ (mid : ℤ) ∧ (mid : ℤ) ≤ hi then
            let base := max (wv.getD lo.toNat 0) (wv.getD hi.toNat 0)
            wv.enum.map (fun iv =>
              if lo ≤ (iv.1 : ℤ) ∧ (iv.1 : ℤ) ≤ hi ∧ base < iv.2 then iv.2 - base else 0)
          else wv) wvNew
        let streamwidth := if 4 < wv2.length then fwhm wv2 mid else 0
        .ok (slope, st.2 ++ [(pt.1, pt.2.1, streamwidth)])

/-- The per-point body of ffe.findWidthOfTrajectory: compute the skin vector
at point i, sample the density image along the perpendicular line out to
maxwidth on both sides, and hand the sampled profile to fwTail. -/
def fwBody (fwhm : List ℤ → ℕ → ℚ) (img : Image) (r maxwidth : ℕ) (traj : Traj)
    (st : (ℚ × ℚ) × List P3) (i : ℕ) : Except Unit ((ℚ × ℚ) × List P3) :=
  let lastslope := st.1
  let pt := traj.getD i (0, 0, 0)
  let slope := if i < traj.length - 1 then
      let pn := traj.getD (i + 1) (0, 0, 0)
      normVec (((pn.1 - pt.1 : ℤ) : ℚ), ((pn.2.1 - pt.2.1 : ℤ) : ℚ))
    else lastslope
  let sv0 := normVec (slope.1 - lastslope.1, slope.2 - lastslope.2)
  let sv := if cross2 slope lastslope = 0 then rot90 lastslope else sv0
  let w1 : ℚ × ℚ := ((pt.1 : ℚ) + maxwidth * sv.1, (pt.2.1 : ℚ) + maxwidth * sv.2)
  let w2 : ℚ × ℚ := ((pt.1 : ℚ) - maxwidth * sv.1, (pt.2.1 : ℚ) - maxwidth * sv.2)
  let n := (pyTrunc (ratSqrt ((w1.1 - w2.1) ^ 2 + (w1.2 - w2.2) ^ 2))).toNat
  let wpoints := ((linspace w1.1 w2.1 n).map pyTrunc).zip ((linspace w1.2 w2.2 n).map pyTrunc)
  let wvalues : List ℤ := wpoints.map (fun p =>
    if 0 ≤ p.1 ∧ p.1 < (img.width : ℤ) ∧ 0 ≤ p.2 ∧ p.2 < (img.height : ℤ) then
      (densityAt img r p.2 p.1 : ℤ)
    else 0)
  fwTail fwhm pt lastslope slope st maxwidth wvalues

/-- The gap-filling post pass of ffe.findWidthOfTrajectory: an interior point
of zero width whose two neighbours both have nonzero width receives the
truncated average of the neighbour widths; updates are in place, so later
iterations see earlier replacements. -/
def gapFill (l : List P3) : List P3 :=
  if l.length ≤ 2 then l
  else (List.range l.length).foldl (fun cur i =>
    if i = 0 ∨ i = l.length - 1 then cur
    else
      let p := cur.getD i (0, 0, 0)
      let pm := cur.getD (i - 1) (0, 0, 0)
      let pp := cur.getD (i + 1) (0, 0, 0)
      if p.2.2 = 0 ∧ ¬pm.2.2 = 0 ∧ ¬pp.2.2 = 0 then
        cur.set i (p.1, p.2.1, ((pyTrunc ((pm.2.2 + pp.2.2) / 2) : ℤ) : ℚ))
      else cur) l

/-- ffe.findWidthOfTrajectory: the density image, the per-point width fold
and the gap-filling pass.  fwhm abstracts the scipy spline / FWHM block (it
receives the adjusted profile and the centre index).  A trajectory of fewer
than two points yields the empty list; an uncaught exception of the source
is Except.error. -/
def findWidthOfTrajectory (fwhm : List ℤ → ℕ → ℚ) (img : Image) (traj : Traj)
    (r : ℕ) : Except Unit (List P3) :=
  if traj.length < 2 then .ok []
  else
    let maxwidth := img.height / 2
    let p0 := traj.getD 0 (0, 0, 0)
    let p1 := traj.getD 1 (0, 0, 0)
    let ls0 := normVec (((p1.1 - p0.1 : ℤ) : ℚ), ((p1.2.1 - p0.2.1 : ℤ) : ℚ))
    match (List.range traj.length).foldlM (fwBody fwhm img r maxwidth traj) (ls0, []) with
    | .error e => .error e
    | .ok st => .ok (gapFill st.2)

/-- Collapse duplicate x keys of a point list as Python dict(pairs) does:
one entry per distinct key, carrying the value of its last occurrence. -/
def dedupLast (l : List (ℤ × ℤ)) : List (ℤ × ℤ) :=
  l.foldl (fun acc p =>
    if acc.any (fun q => q.1 == p.1) then
      acc.map (fun q => if q.1 = p.1 then (q.1, p.2) else q)
    else acc ++ [p]) []

/-- Sort a point list by x coordinate (np.argsort on the key row; keys are
unique after dedupLast, so stability is immaterial). -/
def sortPairsByFst (l : List (ℤ × ℤ)) : List (ℤ × ℤ) :=
  stableSort (fun a b => decide (a.1 ≤ b.1)) l

/-- The x coordinates of the centerline of a trajectory, as rationals. -/
def centerXs (traj : Traj) : List ℚ := (coordsOf traj).map (fun p => ((p.1 : ℤ) : ℚ))

/-- The deduplicated left skin half used by getYandWofTrajectory:
skin[:halflen-1] passed through dict (the last point of the left half is
dropped by the source). -/
def skinLeftOf (traj : Traj) : List (ℤ × ℤ) :=
  let skin := getSkinOfTrajectory traj
  dedupLast (skin.take (skin.length / 2 - 1))

/-- The deduplicated right skin half used by getYandWofTrajectory:
skin[halflen:] reversed, passed through dict. -/
def skinRightOf (traj : Traj) : List (ℤ × ℤ) :=
  let skin := getSkinOfTrajectory traj
  dedupLast ((skin.drop (skin.length / 2)).reverse)

/-- The x coordinates of a skin half, as rationals. -/
def skinXs (l : List (ℤ × ℤ)) : List ℚ := l.map (fun p => ((p.1 : ℤ) : ℚ))

/-- ffe.getYandWofTrajectory with its two external scipy collaborators made
explicit: centerSpline evaluates the interpolating centerline spline
(ext=3), skinFit fits a smoothing spline to one skin half and reports
whether a numerical warning was emitted.  In exact arithmetic the final
NaN/Inf guard of the source cannot fire and is omitted. -/
def getYandWofTrajectory (centerSpline : List (ℤ × ℤ) → ℚ → ℚ)
    (skinFit : List (ℤ × ℤ) → (ℚ → ℚ) × Bool) (traj : Traj) (x : ℚ) : ℚ × ℚ :=
  if traj.length < 4 then (0, -1)
  else
    let xs := centerXs traj
    if ¬(min1 xs ≤ x ∧ x ≤ max1 xs) then (0, -1)
    else
      let y := centerSpline (coordsOf traj) x
      if (getSkinOfTrajectory traj).length % 2 ≠ 0 then (0, -1)
      else
        let lxs := skinXs (skinLeftOf traj)
        let rxs := skinXs (skinRightOf traj)
        if ¬(min1 lxs ≤ x ∧ x ≤ max1 lxs) ∨ ¬(min1 rxs ≤ x ∧ x ≤ max1 rxs) then (y, -1)
        else
          let fitl := skinFit (sortPairsByFst (skinLeftOf traj))
          let fitr := skinFit (sortPairsByFst (skinRightOf traj))
          if fitl.2 ∨ fitr.2 then (y, -1)
          else (y, |fitl.1 x - fitr.1 x|)

/-! Concrete instances used as inputs of witnesses and counterexamples. -/

/-- Contour hierarchy of two nested contours: contour 0 top level with child
1, contour 1 with parent 0 (fields: next, previous, child, parent). -/
def hierTwo : List HierEntry := [(-1, -1, 1, -1), (-1, -1, -1, 0)]

/-- Two contours given by their areas (the area map is the identity). -/
def contoursTwo : List ℚ := [100, 20]

/-- A fully bright 9 x 9 image. -/
def imgBright9 : Image := ⟨9, 9, fun _ _ => 255⟩

/-- A fully bright 12 x 5 image. -/
def imgBright12x5 : Image := ⟨12, 5, fun _ _ => 255⟩

/-- A fully bright 20 x 8 image. -/
def imgBright20x8 : Image := ⟨20, 8, fun _ _ => 255⟩

/-- A fully bright 40 x 40 image. -/
def imgBright40 : Image := ⟨40, 40, fun _ _ => 255⟩

/-- A 5 x 1 all-dark image (a single pixel row). -/
def imgRow5 : Image := ⟨5, 1, fun _ _ => 0⟩

/-- A 9 x 8 image bright on the block of rows 2..5 and columns 3..5. -/
def imgBlock9x8 : Image :=
  ⟨9, 8, fun y x => if 2 ≤ y ∧ y ≤ 5 ∧ 3 ≤ x ∧ x ≤ 5 then 255 else 0⟩

/-- An 8 x 6 image bright exactly on row 2. -/
def imgRowBand8x6 : Image := ⟨8, 6, fun y _ => if y = 2 then 255 else 0⟩

/-- A vertical two-point trajectory through the bright part of imgBright20x8. -/
def trajVert : Traj := [(10, 3, 0), (10, 5, 0)]

/-- A vertical two-point trajectory through the bright block of imgBlock9x8. -/
def trajVertBlock : Traj := [(4, 3, 0), (4, 5, 0)]

/-- A horizontal two-point trajectory on the one-row image. -/
def trajRow : Traj := [(0, 0, 0), (3, 0, 0)]

/-- A short horizontal trajectory of width 2. -/
def trajA : Traj := [(2, 2, 2), (5, 2, 2)]

/-- The same shape far away from trajA. -/
def trajB : Traj := [(20, 12, 2), (23, 12, 2)]

/-- A horizontal four-point trajectory of width 2 (query-interface input). -/
def trajQ : Traj := [(0, 0, 2), (1, 0, 2), (2, 0, 2), (3, 0, 2)]

/-- A collinear four-point trajectory (query-interface counterexample). -/
def trajDiag : Traj := [(0, 0, 0), (1, 1, 0), (2, 2, 0), (3, 3, 0)]

/-- A concrete rasteriser instance: the polygon vertices themselves. -/
def vertexFill : FillFn := fun poly => poly.toFinset

/-- A trivial FWHM collaborator instance. -/
def fwhmZero : List ℤ → ℕ → ℚ := fun _ _ => 0

/-- A trivial math.exp collaborator instance. -/
def expOne : ℚ → ℚ := fun _ => 1

/-- A constant centerline-spline collaborator instance.  For trajDiag (y = x
on 0..3) the scipy interpolating spline with ext=3 clamps to the boundary
value 3 at x = 5, which this instance reproduces. -/
def centerSpline3 : List (ℤ × ℤ) → ℚ → ℚ := fun _ _ => 3

/-- A constant centerline-spline collaborator instance with value 42. -/
def centerSpline42 : List (ℤ × ℤ) → ℚ → ℚ := fun _ _ => 42

/-- A skin-fit collaborator instance that emits no warning. -/
def skinFitOk : List (ℤ × ℤ) → (ℚ → ℚ) × Bool := fun _ => (fun _ => 0, false)

/-- A skin-fit collaborator instance that emits a numerical warning. -/
def skinFitWarn : List (ℤ × ℤ) → (ℚ → ℚ) × Bool := fun _ => (fun _ => 0, true)

/-! Helper lemmas. -/

theorem foldl_min_le_init {α : Type} [LinearOrder α] :
    ∀ (t : List α) (a : α), t.foldl min a ≤ a := by
  intro t
  induction t with
  | nil => intro a; exact le_refl a
  | cons b t ih =>
    intro a
    calc (b :: t).foldl min a = t.foldl min (min a b) := rfl
      _ ≤ min a b := ih (min a b)
      _ ≤ a := min_le_left _ _

theorem foldl_min_le_mem {α : Type} [LinearOrder α] :
    ∀ (t : List α) (a x : α), x ∈ t → t.foldl min a ≤ x := by
  intro t
  induction t with
  | nil => intro a x hx; cases hx
  | cons b t ih =>
    intro a x hx
    rcases List.mem_cons.mp hx with h | h
    · subst h
      calc (x :: t).foldl min a = t.foldl min (min a x) := rfl
        _ ≤ min a x := foldl_min_le_init t (min a x)
        _ ≤ x := min_le_right _ _
    · exact ih (min a b) x h

theorem foldl_min_mem {α : Type} [LinearOrder α] :
    ∀ (t : List α) (a : α), t.foldl min a = a ∨ t.foldl min a ∈ t := by
  intro t
  induction t with
  | nil => intro a; exact Or.inl rfl
  | cons b t ih =>
    intro a
    rcases ih (min a b) with h | h
    · rcases min_choice a b with hm | hm
      · exact Or.inl (by rw [show (b :: t).foldl min a = t.foldl min (min a b) from rfl, h, hm])
      · exact Or.inr (List.mem_cons.mpr (Or.inl
          (by rw [show (b :: t).foldl min a = t.foldl min (min a b) from rfl, h, hm])))
    · exact Or.inr (List.mem_cons.mpr (Or.inr h))

theorem min1_le {α : Type} [Inhabited α] [LinearOrder α] {l : List α} {x : α}
    (hx : x ∈ l) : min1 l ≤ x := by
  cases l with
  | nil => cases hx
  | cons a t =>
    rcases List.mem_cons.mp hx with h | h
    · subst h; exact foldl_min_le_init t x
    · exact foldl_min_le_mem t a x h

theorem min1_mem {α : Type} [Inhabited α] [LinearOrder α] {l : List α}
    (h : l ≠ []) : min1 l ∈ l := by
  cases l with
  | nil => exact absurd rfl h
  | cons a t =>
    rcases foldl_min_mem t a with h1 | h1
    · exact List.mem_cons.mpr (Or.inl (by rw [show min1 (a :: t) = t.foldl min a from rfl, h1]))
    · exact List.mem_cons.mpr (Or.inr (by rw [show min1 (a :: t) = t.foldl min a from rfl]; exact h1))

theorem min1_perm {α : Type} [Inhabited α] [LinearOrder α] {l1 l2 : List α}
    (h : l1.Perm l2) : min1 l1 = min1 l2 := by
  cases l1 with
  | nil => rw [h.nil_eq.symm]
  | cons a t =>
    have h2 : l2 ≠ [] := by
      intro he; rw [he] at h; exact absurd h.symm.nil_eq (by simp)
    exact le_antisymm
      (min1_le (h.mem_iff.mpr (min1_mem h2)))
      (min1_le (h.symm.mem_iff.mpr (min1_mem (by simp))))

theorem foldl_max_init_le {α : Type} [LinearOrder α] :
    ∀ (t : List α) (a : α), a ≤ t.foldl max a := by
  intro t
  induction t with
  | nil => intro a; exact le_refl a
  | cons b t ih =>
    intro a
    calc a ≤ max a b := le_max_left _ _
      _ ≤ t.foldl max (max a b) := ih (max a b)
      _ = (b :: t).foldl max a := rfl

theorem foldl_max_mem_le {α : Type} [LinearOrder α] :
    ∀ (t : List α) (a x : α), x ∈ t → x ≤ t.foldl max a := by
  intro t
  induction t with
  | nil => intro a x hx; cases hx
  | cons b t ih =>
    intro a x hx
    rcases List.mem_cons.mp hx with h | h
    · subst h
      calc x ≤ max a x := le_max_right _ _
        _ ≤ t.foldl max (max a x) := foldl_max_init_le t (max a x)
        _ = (x :: t).foldl max a := rfl
    · exact ih (max a b) x h

theorem foldl_max_mem {α : Type} [LinearOrder α] :
    ∀ (t : List α) (a : α), t.foldl max a = a ∨ t.foldl max a ∈ t := by
  intro t
  induction t with
  | nil => intro a; exact Or.inl rfl
  | cons b t ih =>
    intro a
    rcases ih (max a b) with h | h
    · rcases max_choice a b with hm | hm
      · exact Or.inl (by rw [show (b :: t).foldl max a = t.foldl max (max a b) from rfl, h, hm])
      · exact Or.inr (List.mem_cons.mpr (Or.inl
          (by rw [show (b :: t).foldl max a = t.foldl max (max a b) from rfl, h, hm])))
    · exact Or.inr (List.mem_cons.mpr (Or.inr h))

theorem le_max1 {α : Type} [Inhabited α] [LinearOrder α] {l : List α} {x : α}
    (hx : x ∈ l) : x ≤ max1 l := by
  cases l with
  | nil => cases hx
  | cons a t =>
    rcases List.mem_cons.mp hx with h | h
    · subst h; exact foldl_max_init_le t x
    · exact foldl_max_mem_le t a x h

theorem max1_mem {α : Type} [Inhabited α] [LinearOrder α] {l : List α}
    (h : l ≠ []) : max1 l ∈ l := by
  cases l with
  | nil => exact absurd rfl h
  | cons a t =>
    rcases foldl_max_mem t a with h1 | h1
    · exact List.mem_cons.mpr (Or.inl (by rw [show max1 (a :: t) = t.foldl max a from rfl, h1]))
    · exact List.mem_cons.mpr (Or.inr (by rw [show max1 (a :: t) = t.foldl max a from rfl]; exact h1))

theorem max1_perm {α : Type} [Inhabited α] [LinearOrder α] {l1 l2 : List α}
    (h : l1.Perm l2) : max1 l1 = max1 l2 := by
  cases l1 with
  | nil => rw [h.nil_eq.symm]
  | cons a t =>
    have h2 : l2 ≠ [] := by
      intro he; rw [he] at h; exact absurd h.symm.nil_eq (by simp)
    exact le_antisymm
      (le_max1 (h.mem_iff.mp (max1_mem (by simp))))
      (le_max1 (h.mem_iff.mpr (max1_mem h2)))

/-! Claim C2: findPathOnImage from corner (0,0) on a fully bright image. -/

/-- C2 (corrected): with the default parameters (bias 50, everyotherpoint 10,
densityrad 4), findPathOnImage from the corner (0,0) to the opposite corner
returns the empty list on every image, in particular on every fully bright
rectangle: the density field is only populated at least densityrad away from
the border, so the start corner always has zero density and the start-point
check fails. -/
theorem c2_fullbright_path_empty (img : Image) (_hW : 1 ≤ img.width) (_hH : 1 ≤ img.height) :
    findPathOnImage img (0, 0) ((img.width : ℤ) - 1, (img.height : ℤ) - 1) 50 10 4 = [] := by
  have h0 : densityAt img 4 0 0 = 0 := by
    unfold densityAt
    rw [if_neg]
    intro hc
    have h4 : ((4 : ℕ) : ℤ) ≤ 0 := hc.1
    norm_num at h4
  simp only [findPathOnImage]
  rw [if_pos (Or.inl h0)]

/-- C2 witness: the theorem applied to the fully bright 12 x 5 image. -/
theorem c2_fullbright_path_empty_witness :
    findPathOnImage imgBright12x5 (0, 0)
      ((imgBright12x5.width : ℤ) - 1, (imgBright12x5.height : ℤ) - 1) 50 10 4 = [] :=
  c2_fullbright_path_empty imgBright12x5 (by decide) (by decide)

/-- C2 counterexample: on the fully bright 9 x 9 image the claimed non-empty
path from (0,0) to (8,8) does not exist; the function returns []. -/
theorem c2_claim_counterexample :
    findPathOnImage imgBright9 (0, 0) (8, 8) 50 10 4 = [] ∧
      (findPathOnImage imgBright9 (0, 0) (8, 8) 50 10 4).length = 0 := by
  constructor <;> decide

/-! Claim C3: totality of the width profiler truncation step. -/

set_option maxRecDepth 1000000 in
/-- C3 (code bug): on the fully bright 20 x 8 image and the vertical
two-point trajectory [(10,3),(10,5)], every sampled cross-section value is
nonzero, so np.argwhere(wvaluesleft == 0)[0] indexes an empty array and
findWidthOfTrajectory raises IndexError (embedded as Except.error) instead
of returning a list, for every FWHM collaborator. -/
theorem c3_width_profiler_raises (fwhm : List ℤ → ℕ → ℚ) :
    findWidthOfTrajectory fwhm imgBright20x8 trajVert 1 = .error () := by
  with_unfolding_all rfl

/-! Claim C5: the iteration cap of the gradient tracer. -/

/-- The tracing loop cannot return an iteration count above maxiteration + 1:
i grows by one each executed iteration and the loop flag is cleared as soon
as i exceeds maxiteration. -/
theorem traceLoop_iter_bound (img : Image) (expQ : ℚ → ℚ) (sps : List P3)
    (ma : ℚ) (g r m : ℕ) :
    ∀ (fuel : ℕ) (traj : List P3) (slope : ℚ × ℚ) (i : ℕ) (run : Bool),
      i ≤ m + 1 → (run = true → i ≤ m) →
      (traceLoop img expQ sps ma g r m fuel traj slope i run).1 ≤ m + 1 := by
  intro fuel
  induction fuel with
  | zero => intro traj slope i run h1 _; simpa [traceLoop] using h1
  | succ fuel ih =>
    intro traj slope i run h1 h2
    rw [traceLoop]
    by_cases hr : run = false
    · simp only [hr, if_pos rfl]; exact h1
    · have hi : i ≤ m := h2 (by cases run <;> simp_all)
      rw [if_neg hr]
      dsimp only
      split
      · exact h1
      · split
        · exact h1
        · split
          · exact h1
          · split
            · exact h1
            · split
              · exact h1
              · split
                · exact h1
                · split
                  · exact h1
                  · exact ih _ _ _ _ (by omega) (fun h => by
                      by_cases hm : m < i + 1
                      · simp [hm] at h
                      · omega)

/-- C5 (corrected): for every input, the per-endpoint tracing loop of
getTrajectoriesFromImage executes at most maxiteration + 1 iterations (not
maxiteration as claimed: i is incremented before being compared with the
cap, an off-by-one); the cap still bounds the per-endpoint runtime
independently of image content. -/
theorem c5_iteration_bound (img : Image) (expQ : ℚ → ℚ) (startpoints : List P3)
    (flow : ℚ × ℚ) (maxiteration : ℕ) (gradientfactor : ℚ) (r : ℕ)
    (maxattraction : ℚ) (endpoint : P3) :
    (traceFromEndpoint img expQ startpoints flow maxiteration gradientfactor r
      maxattraction endpoint).1 ≤ maxiteration + 1 := by
  unfold traceFromEndpoint
  exact traceLoop_iter_bound _ _ _ _ _ _ _ _ _ _ _ _ (by omega) (fun _ => by omega)

/-- C5 counterexample: with maxiteration = 0 on the fully bright 40 x 40
image, the loop for endpoint (20,20) executes 1 iteration, exceeding the
claimed bound of at most 0 iterations. -/
theorem c5_claim_counterexample :
    (traceFromEndpoint imgBright40 expOne [] ((-1 : ℚ), 0) 0 (1/10) 1 0 (20, 20, 3)).1 = 1 := by
  with_unfolding_all rfl

/-! Claim C8: every returned trajectory has at least two points. -/

theorem except_error_bind {ε α β : Type} (e : ε) (f : α → Except ε β) :
    (Except.error e : Except ε α) >>= f = .error e := rfl

theorem except_ok_bind {ε α β : Type} (a : α) (f : α → Except ε β) :
    (Except.ok a : Except ε α) >>= f = f a := rfl

/-- A monadic fold over Except preserves an invariant preserved by its step. -/
theorem foldlM_except_inv {α β : Type} (P : β → Prop) (step : β → α → Except Unit β)
    (hstep : ∀ b a b2, step b a = .ok b2 → P b → P b2) :
    ∀ (l : List α) (b : β) (res : β), l.foldlM step b = .ok res → P b → P res := by
  intro l
  induction l with
  | nil =>
    intro b res h hP
    simp only [List.foldlM_nil] at h
    cases h; exact hP
  | cons a l ih =>
    intro b res h hP
    simp only [List.foldlM_cons] at h
    cases hs : step b a with
    | error e => rw [hs, except_error_bind] at h; simp at h
    | ok b1 =>
      rw [hs, except_ok_bind] at h
      exact ih b1 res h (hstep b a b1 hs hP)

/-- The no-path check and the final dump of one-point paths keep only empty
or two-plus paths. -/
theorem pathDump_nil_or_long (c : Prop) [Decidable c] (p : List (ℤ × ℤ)) :
    (if c then [] else if p.length < 2 then ([] : List (ℤ × ℤ)) else p) = [] ∨
      2 ≤ (if c then [] else if p.length < 2 then ([] : List (ℤ × ℤ)) else p).length := by
  by_cases hc : c
  · exact Or.inl (if_pos hc)
  · rw [if_neg hc]
    by_cases h : p.length < 2
    · exact Or.inl (if_pos h)
    · right; rw [if_neg h]; omega

/-- findPathOnImage never returns a single-point path: every result is
either empty or has at least two points. -/
theorem findPathOnImage_nil_or_long (img : Image) (sp ep : ℤ × ℤ) (bias : ℤ)
    (ev r : ℕ) : findPathOnImage img sp ep bias ev r = [] ∨
      2 ≤ (findPathOnImage img sp ep bias ev r).length := by
  simp only [findPathOnImage]
  split
  · exact Or.inl rfl
  · exact pathDump_nil_or_long _ _

/-- dijkstraOne returns either the empty path or a path of length at least
two (it hands back a findPathOnImage result). -/
theorem dijkstraOne_nil_or_long (img : Image) (bias : ℤ) (ev r : ℕ) (spv : ℚ)
    (s e : P3) (path : List (ℤ × ℤ)) :
    dijkstraOne img bias ev r spv s e = .ok path → path = [] ∨ 2 ≤ path.length := by
  intro h
  simp only [dijkstraOne] at h
  split at h
  · split at h
    · rw [except_error_bind] at h; simp at h
    · split at h
      · rw [except_ok_bind] at h
        simp only [Except.ok.injEq] at h
        rw [← h]
        exact findPathOnImage_nil_or_long _ _ _ _ _ _
      · rw [except_ok_bind] at h
        simp only [Except.ok.injEq] at h
        rw [← h]
        exact findPathOnImage_nil_or_long _ _ _ _ _ _
  · rw [except_ok_bind] at h
    simp only [Except.ok.injEq] at h
    rw [← h]
    exact findPathOnImage_nil_or_long _ _ _ _ _ _

/-- C8 (confirmed): every trajectory returned by the gradient tracer or by
the shortest-path tracer has at least two points; shorter candidates are
never included. -/
theorem c8_trajectories_min_length :
    (∀ (img : Image) (expQ : ℚ → ℚ) (sps eps : List P3) (flow : ℚ × ℚ)
      (mi : ℕ) (gf : ℚ) (r : ℕ) (ma : ℚ) (ts : List Traj),
      getTrajectoriesFromImage img expQ sps eps flow mi gf r ma = .ok ts →
      ∀ t ∈ ts, 2 ≤ t.length) ∧
    (∀ (img : Image) (sps eps : List P3) (bias : ℤ) (ev r : ℕ) (spv : ℚ)
      (ts : List Traj),
      getTrajectoriesFromImageDijkstra img sps eps bias ev r spv = .ok ts →
      ∀ t ∈ ts, 2 ≤ t.length) := by
  constructor
  · intro img expQ sps eps flow mi gf r ma ts h
    refine foldlM_except_inv (fun acc => ∀ t ∈ acc, 2 ≤ t.length)
      (gradStep img expQ sps flow mi gf r ma) ?_ eps [] ts h (by simp)
    intro b a b2 hs hP
    unfold gradStep at hs
    split at hs
    · cases hs
    · rename_i traj heq
      simp only [Except.ok.injEq] at hs
      rw [← hs]
      split
      · rename_i hlen
        intro t ht
        rcases List.mem_append.mp ht with h1 | h1
        · exact hP t h1
        · rcases List.mem_singleton.mp h1 with rfl
          rw [List.length_reverse]; omega
      · exact hP
  · intro img sps eps bias ev r spv ts h
    unfold getTrajectoriesFromImageDijkstra at h
    split at h
    · cases h; intro t ht; cases ht
    · refine foldlM_except_inv (fun acc => ∀ t ∈ acc, 2 ≤ t.length)
        (dijkstraStepEnd img sps bias ev r spv) ?_ eps [] ts h (by simp)
      intro b a b2 hs hP
      unfold dijkstraStepEnd at hs
      refine foldlM_except_inv (fun acc => ∀ t ∈ acc, 2 ≤ t.length)
        (dijkstraStepStart img bias ev r spv a) ?_ sps b b2 hs hP
      intro c s c2 hcs hPc
      unfold dijkstraStepStart at hcs
      cases hd : dijkstraOne img bias ev r spv s a with
      | error e =>
        rw [hd, except_error_bind] at hcs; simp at hcs
      | ok path =>
        rw [hd, except_ok_bind] at hcs
        rcases dijkstraOne_nil_or_long img bias ev r spv s a path hd with hp | hp
        · subst hp
          simp at hcs
          rw [← hcs]; exact hPc
        · have hpos : path.length > 0 := by omega
          rw [if_pos hpos] at hcs
          simp only [Except.ok.injEq] at hcs
          rw [← hcs]
          intro t ht
          rcases List.mem_append.mp ht with h1 | h1
          · exact hPc t h1
          · rcases List.mem_singleton.mp h1 with rfl
            simpa using hp

set_option maxRecDepth 1000000 in
/-- C8 witness: concrete runs of both tracers produce trajectories, each of
which the theorem certifies to have at least two points. -/
theorem c8_trajectories_min_length_witness :
    2 ≤ ([((16 : ℤ), (20 : ℤ), (10 : ℚ)), (20, 20, 3)] : Traj).length ∧
      2 ≤ ([((4 : ℤ), (2 : ℤ), (10 : ℚ)), (3, 2, 10), (1, 2, 10)] : Traj).length := by
  constructor
  · exact c8_trajectories_min_length.1 imgBright40 expOne [] [(20, 20, 3)] (-1, 0) 0
      (1/10) 1 0 [[(16, 20, 10), (20, 20, 3)]] (by with_unfolding_all rfl) _ (by simp)
  · exact c8_trajectories_min_length.2 imgRowBand8x6 [(4, 2, 2)] [(1, 2, 2)] 50 10 1 2
      [[(4, 2, 10), (3, 2, 10), (1, 2, 10)]] (by with_unfolding_all rfl) _ (by simp)

/-! Claim C9: the width profiler only changes widths. -/

theorem range_map_getD {α β : Type} (l : List α) (d : α) (f : α → β) :
    (List.range l.length).map (fun i => f (l.getD i d)) = l.map f := by
  apply List.ext_getElem
  · simp
  · intro i h1 h2
    simp only [List.getElem_map, List.getElem_range]
    rw [List.getD_eq_getElem?_getD, List.getElem?_eq_getElem (by simpa using h2)]
    rfl

/-- The tail step either skips the point or appends it with the given
coordinates and some width. -/
theorem fwTail_shape (fwhm : List ℤ → ℕ → ℚ) (pt : P3) (ls sl : ℚ × ℚ)
    (st : (ℚ × ℚ) × List P3) (mw : ℕ) (wv : List ℤ) (st2 : (ℚ × ℚ) × List P3)
    (h : fwTail fwhm pt ls sl st mw wv = .ok st2) :
    st2.2 = st.2 ∨ ∃ w, st2.2 = st.2 ++ [(pt.1, pt.2.1, w)] := by
  unfold fwTail at h
  by_cases hw : wv = []
  · rw [if_pos hw] at h
    cases h
    exact Or.inl rfl
  · rw [if_neg hw] at h
    cases hL : (pySliceRevTo1 wv mw).findIdx? (· == 0) with
    | none => simp only [hL] at h; exact absurd h (by simp)
    | some il =>
      simp only [hL] at h
      cases hR : (wv.drop mw).findIdx? (· == 0) with
      | none => simp only [hR] at h; exact absurd h (by simp)
      | some ir =>
        simp only [hR] at h
        cases h
        exact Or.inr ⟨_, rfl⟩

/-- One body step of the width fold either skips the point or appends it
with its input coordinates and some width. -/
theorem fwBody_shape (fwhm : List ℤ → ℕ → ℚ) (img : Image) (r mw : ℕ) (traj : Traj)
    (st : (ℚ × ℚ) × List P3) (i : ℕ) (st2 : (ℚ × ℚ) × List P3)
    (h : fwBody fwhm img r mw traj st i = .ok st2) :
    st2.2 = st.2 ∨ ∃ w, st2.2 = st.2 ++
      [((traj.getD i (0, 0, 0)).1, (traj.getD i (0, 0, 0)).2.1, w)] := by
  unfold fwBody at h
  exact fwTail_shape _ _ _ _ _ _ _ _ h

/-- The width fold produces, up to widths, a subsequence of the scanned
points appended to the accumulator. -/
theorem fwFold_coords (fwhm : List ℤ → ℕ → ℚ) (img : Image) (r mw : ℕ) (traj : Traj) :
    ∀ (idxs : List ℕ) (st st2 : (ℚ × ℚ) × List P3),
      idxs.foldlM (fwBody fwhm img r mw traj) st = .ok st2 →
      ∃ S, coordsOf st2.2 = coordsOf st.2 ++ S ∧
        S.Sublist (idxs.map (fun i =>
          ((traj.getD i (0, 0, 0)).1, (traj.getD i (0, 0, 0)).2.1))) := by
  intro idxs
  induction idxs with
  | nil =>
    intro st st2 h
    simp only [List.foldlM_nil] at h
    cases h
    exact ⟨[], by simp, List.nil_sublist _⟩
  | cons i rest ih =>
    intro st st2 h
    simp only [List.foldlM_cons] at h
    cases hs : fwBody fwhm img r mw traj st i with
    | error e => rw [hs, except_error_bind] at h; simp at h
    | ok st1 =>
      rw [hs, except_ok_bind] at h
      obtain ⟨S, hS, hsub⟩ := ih st1 st2 h
      rcases fwBody_shape fwhm img r mw traj st i st1 hs with h1 | ⟨w, h1⟩
      · refine ⟨S, by rw [hS, h1], ?_⟩
        simp only [List.map_cons]
        exact hsub.trans (List.sublist_cons_self _ _)
      · refine ⟨((traj.getD i (0, 0, 0)).1, (traj.getD i (0, 0, 0)).2.1) :: S, ?_, ?_⟩
        · rw [hS, h1]
          simp [coordsOf]
        · simp only [List.map_cons]
          exact hsub.cons₂ _

/-- Setting a list entry to a value carrying the entry's own coordinates
does not change the coordinate sequence. -/
theorem coordsOf_set (l : List P3) (i : ℕ) (w : ℚ) :
    coordsOf (l.set i ((l.getD i (0, 0, 0)).1, (l.getD i (0, 0, 0)).2.1, w)) = coordsOf l := by
  by_cases h : i < l.length
  · apply List.ext_getElem
    · simp [coordsOf]
    · intro j hj1 hj2
      simp only [coordsOf, List.getElem_map, List.getElem_set]
      split
      · rename_i hij
        subst hij
        rw [List.getD_eq_getElem?_getD, List.getElem?_eq_getElem h]
        simp only [Option.getD_some]
      · rfl
  · rw [List.set_eq_of_length_le (by omega)]

/-- A fold whose step preserves coordinates preserves coordinates. -/
theorem foldl_coords_inv (step : List P3 → ℕ → List P3)
    (hstep : ∀ cur i, coordsOf (step cur i) = coordsOf cur) :
    ∀ (idxs : List ℕ) (cur : List P3), coordsOf (idxs.foldl step cur) = coordsOf cur := by
  intro idxs
  induction idxs with
  | nil => intro cur; rfl
  | cons i rest ih =>
    intro cur
    rw [List.foldl_cons, ih, hstep]

/-- The gap-filling pass only changes widths. -/
theorem gapFill_coords (l : List P3) : coordsOf (gapFill l) = coordsOf l := by
  unfold gapFill
  split
  · rfl
  · apply foldl_coords_inv
    intro cur i
    dsimp only
    split
    · rfl
    · split
      · exact coordsOf_set cur i _
      · rfl

/-- C9 (corrected): the width profiler returns, up to widths, a subsequence
of the input coordinates (a point whose sampled cross-section line is empty
is dropped); whenever no point is dropped, the i-th output point carries
exactly the (x, y) of the input's i-th point. -/
theorem c9_coords_preserved (fwhm : List ℤ → ℕ → ℚ) (img : Image) (traj : Traj)
    (r : ℕ) (res : List P3) (h : findWidthOfTrajectory fwhm img traj r = .ok res) :
    (coordsOf res).Sublist (coordsOf traj) ∧
      (res.length = traj.length → coordsOf res = coordsOf traj) := by
  unfold findWidthOfTrajectory at h
  split at h
  · rename_i hlen
    simp only [Except.ok.injEq] at h
    have hres : res = [] := h.symm
    subst hres
    constructor
    · exact List.nil_sublist _
    · intro hl
      have : traj = [] := List.length_eq_zero.mp hl.symm
      rw [this]
  · dsimp only at h
    split at h
    · simp at h
    · rename_i st hfold
      simp only [Except.ok.injEq] at h
      have hres : res = gapFill st.2 := h.symm
      obtain ⟨S, hS, hsub⟩ := fwFold_coords fwhm img (r) _ traj (List.range traj.length)
        _ st hfold
      have hcoords : coordsOf res = S := by
        rw [hres, gapFill_coords, hS]
        simp [coordsOf]
      have hmap : (List.range traj.length).map (fun i =>
          ((traj.getD i (0, 0, 0)).1, (traj.getD i (0, 0, 0)).2.1)) = coordsOf traj :=
        range_map_getD traj (0, 0, 0) (fun p => (p.1, p.2.1))
      have hsub2 : (coordsOf res).Sublist (coordsOf traj) := by
        rw [hcoords]; rw [hmap] at hsub; exact hsub
      refine ⟨hsub2, fun hl => hsub2.eq_of_length ?_⟩
      simp only [coordsOf, List.length_map]
      exact hl

set_option maxRecDepth 1000000 in
/-- C9 witness: a complete run on the 9 x 8 block image keeps both points
with their coordinates. -/
theorem c9_coords_preserved_witness :
    (coordsOf [((4 : ℤ), (3 : ℤ), (0 : ℚ)), (4, 5, 0)]).Sublist (coordsOf trajVertBlock) ∧
      (([((4 : ℤ), (3 : ℤ), (0 : ℚ)), (4, 5, 0)] : List P3).length = trajVertBlock.length →
        coordsOf [((4 : ℤ), (3 : ℤ), (0 : ℚ)), (4, 5, 0)] = coordsOf trajVertBlock) :=
  c9_coords_preserved fwhmZero imgBlock9x8 trajVertBlock 1 [(4, 3, 0), (4, 5, 0)]
    (by with_unfolding_all rfl)

set_option maxRecDepth 1000000 in
/-- C9 counterexample: on a one-row image every sampled line is empty
(maxwidth = 0), both points are dropped, and the result is empty rather
than of the input's length 2. -/
theorem c9_claim_counterexample :
    findWidthOfTrajectory fwhmZero imgRow5 trajRow 1 = .ok [] ∧ trajRow.length = 2 := by
  constructor
  · with_unfolding_all rfl
  · rfl

/-! Claim C1: the separation-zone locator returns the first qualifying pair. -/

theorem find?_append_some {α : Type} {p : α → Bool} {l1 l2 : List α} {x : α}
    (h : l1.find? p = some x) : (l1 ++ l2).find? p = some x := by
  induction l1 with
  | nil => simp [List.find?] at h
  | cons a t ih =>
    by_cases hp : p a
    · rw [List.find?_cons_of_pos _ hp] at h
      rw [List.cons_append, List.find?_cons_of_pos _ hp]
      exact h
    · rw [List.find?_cons_of_neg _ hp] at h
      rw [List.cons_append, List.find?_cons_of_neg _ hp]
      exact ih h

theorem find?_append_none {α : Type} {p : α → Bool} {l1 l2 : List α}
    (h : l1.find? p = none) : (l1 ++ l2).find? p = l2.find? p := by
  induction l1 with
  | nil => rfl
  | cons a t ih =>
    by_cases hp : p a
    · rw [List.find?_cons_of_pos _ hp] at h; cases h
    · rw [List.find?_cons_of_neg _ hp] at h
      rw [List.cons_append, List.find?_cons_of_neg _ hp]
      exact ih h

/-- find? over an initial range returns the smallest index satisfying the
predicate. -/
theorem find?_range_first (p : ℕ → Bool) (n j : ℕ) (hj : j < n) (hpj : p j = true)
    (hmin : ∀ k, k < j → p k = false) : (List.range n).find? p = some j := by
  have hdec : List.range n = List.range' 0 j ++ List.range' j (n - j) := by
    rw [List.range_eq_range']
    have hap := List.range'_append_1 0 j (n - j)
    rw [Nat.zero_add] at hap
    have hn : n = n - j + j := by omega
    rw [hn, ← hap]
    simp only [Nat.add_sub_cancel]
  rw [hdec]
  have h1 : (List.range' 0 j).find? p = none := by
    rw [List.find?_eq_none]
    intro x hx
    have hxj : x < j := by
      have := List.mem_range'_1.mp hx
      omega
    simp [hmin x hxj]
  rw [find?_append_none h1]
  have h2 : n - j = (n - j - 1) + 1 := by omega
  rw [h2, List.range'_succ]
  exact List.find?_cons_of_pos _ hpj

/-- The outer scan skips every index that is not an admitted parent or has
no accepted child. -/
theorem sepScan_skip {α : Type} [Inhabited α] (area : α → ℚ) (contours : List α)
    (hierarchy : List HierEntry) (T R V : ℚ) (l1 l2 : List ℕ)
    (hskip : ∀ i ∈ l1, sepOuterOK area contours hierarchy T i = false ∨
      (List.range contours.length).find? (sepChildOK area contours hierarchy T R V i) = none) :
    sepScan area contours hierarchy T R V (l1 ++ l2) =
      sepScan area contours hierarchy T R V l2 := by
  induction l1 with
  | nil => rfl
  | cons a t ih =>
    have hrest : ∀ i ∈ t, _ := fun i hi => hskip i (List.mem_cons_of_mem a hi)
    rcases hskip a (List.mem_cons_self a t) with h | h
    · rw [List.cons_append]
      rw [show sepScan area contours hierarchy T R V (a :: (t ++ l2)) =
        sepScan area contours hierarchy T R V (t ++ l2) by simp [sepScan, h]]
      exact ih hrest
    · rw [List.cons_append]
      by_cases ho : sepOuterOK area contours hierarchy T a
      · rw [show sepScan area contours hierarchy T R V (a :: (t ++ l2)) =
          sepScan area contours hierarchy T R V (t ++ l2) by simp [sepScan, ho, h]]
        exact ih hrest
      · rw [show sepScan area contours hierarchy T R V (a :: (t ++ l2)) =
          sepScan area contours hierarchy T R V (t ++ l2) by
            simp [sepScan, Bool.eq_false_iff.mpr ho]]
        exact ih hrest

set_option maxHeartbeats 1000000 in
/-- C1 (corrected): when the contour/hierarchy set contains a qualifying
pair in the sense of the source - top-level parent with a child field, the
(zero-adjusted) parent area at least the threshold, the child area also at
least the threshold, and the child/parent area ratio rounded to one decimal
inside [R-V, R+V] - and (i, j) is the first such pair in the traversal
order (parents in index order, children in index order), the locator
returns exactly (i, j) and not the (-1, -1) sentinel. -/
theorem c1_locator_first_match {α : Type} [Inhabited α] (area : α → ℚ)
    (contours : List α) (hierarchy : List HierEntry) (T R V : ℚ) (i j : ℕ)
    (hlen : contours.length = hierarchy.length)
    (hq : sepQualify area contours hierarchy T R V i j)
    (hmin : ∀ i2, i2 < contours.length → ∀ j2, j2 < contours.length →
      sepQualify area contours hierarchy T R V i2 j2 → i < i2 ∨ (i = i2 ∧ j ≤ j2)) :
    findSeparationZoneBoundaries area contours hierarchy T R V = ((i : ℤ), (j : ℤ)) ∧
      findSeparationZoneBoundaries area contours hierarchy T R V ≠ (-1, -1) := by
  obtain ⟨hi, hj, hout, hchild⟩ := hq
  have hfind : (List.range contours.length).find?
      (sepChildOK area contours hierarchy T R V i) = some j := by
    apply find?_range_first _ _ _ hj hchild
    intro k hk
    by_contra hcon
    have hktrue : sepChildOK area contours hierarchy T R V i k = true := by
      cases hcase : sepChildOK area contours hierarchy T R V i k
      · exact absurd hcase hcon
      · rfl
    have hqk : sepQualify area contours hierarchy T R V i k :=
      ⟨hi, by omega, hout, hktrue⟩
    rcases hmin i hi k (by omega) hqk with h | ⟨_, h⟩ <;> omega
  have hdec : List.range contours.length =
      List.range' 0 i ++ List.range' i (contours.length - i) := by
    rw [List.range_eq_range']
    have hap := List.range'_append_1 0 i (contours.length - i)
    rw [Nat.zero_add] at hap
    have hn : contours.length = contours.length - i + i := by omega
    rw [hn, ← hap]
    simp only [Nat.add_sub_cancel]
  have hskip : ∀ i2 ∈ List.range' 0 i,
      sepOuterOK area contours hierarchy T i2 = false ∨
      (List.range contours.length).find?
        (sepChildOK area contours hierarchy T R V i2) = none := by
    intro i2 hmem
    have hi2 : i2 < i := by
      have := List.mem_range'_1.mp hmem
      omega
    cases ho : sepOuterOK area contours hierarchy T i2
    · exact Or.inl rfl
    · right
      rw [List.find?_eq_none]
      intro j2 hj2mem hpj2
      have hj2 : j2 < contours.length := List.mem_range.mp hj2mem
      have hqk : sepQualify area contours hierarchy T R V i2 j2 :=
        ⟨by omega, hj2, ho, by simpa using hpj2⟩
      rcases hmin i2 (by omega) j2 hj2 hqk with h | ⟨h, _⟩ <;> omega
  have hscan : sepScan area contours hierarchy T R V (List.range contours.length) =
      some (i, j) := by
    rw [hdec, sepScan_skip area contours hierarchy T R V _ _ hskip]
    have h2 : contours.length - i = (contours.length - i - 1) + 1 := by omega
    rw [h2, List.range'_succ]
    rw [show sepScan area contours hierarchy T R V
        (i :: List.range' (i + 1) (contours.length - i - 1)) = some (i, j) by
      simp [sepScan, hout, hfind]]
  constructor
  · unfold findSeparationZoneBoundaries
    rw [if_neg (by omega), hscan]
  · unfold findSeparationZoneBoundaries
    rw [if_neg (by omega), hscan]
    intro hcon
    have := congrArg Prod.fst hcon
    simp at this

/-- C1 witness: with threshold 10 the nested pair (0, 1) of areas 100 and 20
qualifies (ratio 0.2) and is returned. -/
theorem c1_locator_first_match_witness :
    findSeparationZoneBoundaries id contoursTwo hierTwo 10 (1/5) (1/20) = (0, 1) ∧
      findSeparationZoneBoundaries id contoursTwo hierTwo 10 (1/5) (1/20) ≠ (-1, -1) :=
  c1_locator_first_match id contoursTwo hierTwo 10 (1/5) (1/20) 0 1 rfl
    (of_decide_eq_true (by with_unfolding_all rfl))
    (of_decide_eq_true (by with_unfolding_all rfl))

/-- C1 counterexample: areas 100 (parent) and 20 (child) with threshold 50;
the parent passes the area threshold and the exact child/parent ratio 0.2
lies inside [0.15, 0.25], yet the locator returns the (-1, -1) sentinel
because the child area 20 is below the threshold 50 (a condition the claim
omits). -/
theorem c1_claim_counterexample :
    findSeparationZoneBoundaries id contoursTwo hierTwo 50 (1/5) (1/20) = (-1, -1) ∧
      hParent (hierTwo.getD 0 (-1, -1, -1, -1)) = -1 ∧
      hChild (hierTwo.getD 0 (-1, -1, -1, -1)) = 1 ∧
      (50 : ℚ) ≤ contoursTwo.getD 0 0 ∧
      (1/5 - 1/20 : ℚ) ≤ contoursTwo.getD 1 0 / contoursTwo.getD 0 0 ∧
      contoursTwo.getD 1 0 / contoursTwo.getD 0 0 ≤ 1/5 + 1/20 := by
  refine ⟨?_, rfl, rfl, ?_, ?_, ?_⟩
  · with_unfolding_all rfl
  · exact of_decide_eq_true (by with_unfolding_all rfl)
  · exact of_decide_eq_true (by with_unfolding_all rfl)
  · exact of_decide_eq_true (by with_unfolding_all rfl)

/-! Claim C6: self-overlap and symmetry of the overlap metric. -/

theorem ratSqrt_nonneg (q : ℚ) : 0 ≤ ratSqrt q := by
  unfold ratSqrt
  split
  · exact le_refl 0
  · split
    · positivity
    · exact le_refl 0

theorem ptDist_self (p : ℚ × ℚ) : ptDist p p = 0 := by
  unfold ptDist
  rw [sub_self, sub_self]
  norm_num [ratSqrt]

theorem rectPoints_append (a b : Traj) :
    rectPoints (a ++ b) = rectPoints a ++ rectPoints b := by
  unfold rectPoints
  exact List.flatMap_append a b _

/-- The common bounding rectangle does not depend on the order of the two
trajectories. -/
theorem rect_comm (a b : Traj) :
    calculateTrajectoryRectangle (a ++ b) = calculateTrajectoryRectangle (b ++ a) := by
  have hperm : (rectPoints (a ++ b)).Perm (rectPoints (b ++ a)) := by
    rw [rectPoints_append, rectPoints_append]
    exact List.perm_append_comm
  unfold calculateTrajectoryRectangle
  by_cases h1 : rectPoints (a ++ b) = []
  · have h2 : rectPoints (b ++ a) = [] := by
      rw [h1] at hperm
      exact hperm.symm.eq_nil
    rw [h1, h2]
  · have h2 : rectPoints (b ++ a) ≠ [] := by
      intro hh
      rw [hh] at hperm
      exact h1 hperm.eq_nil
    dsimp only
    rw [if_neg h1, if_neg h2,
      min1_perm (hperm.map Prod.fst), max1_perm (hperm.map Prod.fst),
      min1_perm (hperm.map Prod.snd), max1_perm (hperm.map Prod.snd)]

/-- The canvas-clipped cover of a trajectory does not depend on the order in
which the two trajectories define the common rectangle. -/
theorem overlapCover_comm (fill : FillFn) (a b t : Traj) :
    overlapCover fill a b t = overlapCover fill b a t := by
  unfold overlapCover
  rw [rect_comm]

/-- C6 (confirmed): for every rasteriser, a trajectory whose skin renders to
at least one canvas pixel has self-overlap exactly 1, and the overlap
metric is symmetric. -/
theorem c6_overlap_self_and_symm :
    (∀ (fill : FillFn) (t : Traj), getSkinOfTrajectory t ≠ [] →
      0 < (overlapCover fill t t t).card →
      calculateTrajectoriesOverlap fill t t = 1) ∧
    (∀ (fill : FillFn) (a b : Traj),
      calculateTrajectoriesOverlap fill a b = calculateTrajectoriesOverlap fill b a) := by
  constructor
  · intro fill t hskin hcard
    have ht : t ≠ [] := by
      intro he
      apply hskin
      rw [he]
      rfl
    unfold calculateTrajectoriesOverlap
    rw [if_neg (by simp [ht]), if_neg (by simp [hskin])]
    dsimp only
    rw [Finset.inter_self, min_self]
    rw [if_neg (by omega), if_neg (by omega)]
    rw [min_self]
    have hpos : (0 : ℚ) < ((overlapCover fill t t t).card : ℚ) := by exact_mod_cast hcard
    exact div_self hpos.ne'
  · intro fill a b
    unfold calculateTrajectoriesOverlap
    rw [show overlapCover fill b a b = overlapCover fill a b b from overlapCover_comm fill b a b,
      show overlapCover fill b a a = overlapCover fill a b a from overlapCover_comm fill b a a]
    by_cases h1 : a = []
    · simp [h1]
    · by_cases h2 : b = []
      · simp [h2]
      · by_cases h3 : getSkinOfTrajectory a = []
        · simp [h1, h2, h3]
        · by_cases h4 : getSkinOfTrajectory b = []
          · simp [h1, h2, h3, h4]
          · simp [eq_false h1, eq_false h2, eq_false h3, eq_false h4, min_comm,
              Finset.inter_comm]

set_option maxRecDepth 1000000 in
/-- C6 witness: the vertex rasteriser on the concrete trajectory trajA gives
self-overlap 1, and symmetry holds at trajA, trajB. -/
theorem c6_overlap_witness :
    calculateTrajectoriesOverlap vertexFill trajA trajA = 1 ∧
      calculateTrajectoriesOverlap vertexFill trajA trajB =
        calculateTrajectoriesOverlap vertexFill trajB trajA :=
  ⟨c6_overlap_self_and_symm.1 vertexFill trajA
      (of_decide_eq_true (by with_unfolding_all rfl))
      (of_decide_eq_true (by with_unfolding_all rfl)),
    c6_overlap_self_and_symm.2 vertexFill trajA trajB⟩

/-! Claim C7: combining lists without duplicates drops nothing. -/

/-- When no processed item is a duplicate of anything before it, the merge
loop appends every item. -/
theorem combineLoop_all_new (crit : Traj → Traj → Bool) :
    ∀ (ws fl : List Traj), (∀ w ∈ ws, ∀ f ∈ fl, crit w f = false) →
      List.Pairwise (fun x y => crit y x = false) ws →
      combineLoop crit ws fl = fl ++ ws := by
  intro ws
  induction ws with
  | nil => intro fl _ _; simp [combineLoop]
  | cons w ws ih =>
    intro fl h1 h2
    rw [combineLoop]
    have hfind : fl.find? (fun f => crit w f) = none := by
      rw [List.find?_eq_none]
      intro f hf
      simp [h1 w (List.mem_cons_self w ws) f hf]
    have hstep : mergeStep crit fl w = fl ++ [w] := by
      unfold mergeStep
      rw [hfind]
    rw [hstep]
    rw [ih (fl ++ [w]) ?_ (List.pairwise_cons.mp h2).2]
    · rw [List.append_assoc, List.singleton_append]
    · intro w1 hw1 f hf
      rcases List.mem_append.mp hf with h | h
      · exact h1 w1 (List.mem_cons_of_mem w hw1) f h
      · rcases List.mem_singleton.mp h with rfl
        exact (List.pairwise_cons.mp h2).1 w1 hw1

/-- C7 (corrected): when every pair of pooled members - within and across
the two input lists, compared in processing order - fails the duplicate
criterion, combineTrajectories returns all of them (the pooled list
reversed), so the length is the sum of the input lengths. -/
theorem c7_combine_disjoint (fill : FillFn) (maxov : ℚ) (useH : Bool) (bias : ℚ)
    (l1 l2 : List Traj)
    (hpair : List.Pairwise
      (fun x y => mergeCriteria fill maxov useH bias x y = false) (l1 ++ l2)) :
    combineTrajectories fill l1 l2 maxov useH bias = (l1 ++ l2).reverse ∧
      (combineTrajectories fill l1 l2 maxov useH bias).length =
        l1.length + l2.length := by
  have hpair2 : List.Pairwise
      (fun x y => mergeCriteria fill maxov useH bias y x = false) ((l1 ++ l2).reverse) := by
    rw [List.pairwise_reverse]
    exact hpair
  have h := combineLoop_all_new (mergeCriteria fill maxov useH bias)
    ((l1 ++ l2).reverse) [] (by simp) hpair2
  constructor
  · unfold combineTrajectories
    rw [h]
    rfl
  · unfold combineTrajectories
    rw [h]
    simp [Nat.add_comm]

set_option maxRecDepth 1000000 in
/-- C7 witness: two far-apart single-trajectory lists under the overlap
metric are combined without loss. -/
theorem c7_combine_disjoint_witness :
    combineTrajectories vertexFill [trajA] [trajB] (3/4) false 10 = [trajB, trajA] ∧
      (combineTrajectories vertexFill [trajA] [trajB] (3/4) false 10).length = 2 := by
  have h := c7_combine_disjoint vertexFill (3/4) false 10 [trajA] [trajB]
    (by
      refine List.Pairwise.cons ?_ (List.pairwise_singleton _ _)
      intro b hb
      rcases List.mem_singleton.mp hb with rfl
      exact of_decide_eq_true (by with_unfolding_all rfl))
  exact ⟨h.1, h.2⟩

set_option maxRecDepth 1000000 in
/-- C7 counterexample: pooling a list that contains the same trajectory
twice with an empty second list satisfies the claim's cross-pair condition
vacuously, yet one copy is merged away: the result has length 1, not 2. -/
theorem c7_claim_counterexample :
    (combineTrajectories vertexFill [trajA, trajA] [] (3/4) false 10).length = 1 := by
  with_unfolding_all rfl

/-! Claim C10: the Hausdorff guard value for empty trajectories. -/

/-- C10 (amended): the Hausdorff distance from an empty trajectory to any
trajectory is 0 - the value it also takes on two identical trajectories -
and therefore, whenever some trajectory has already been accepted when the
empty one is processed (and the bias is nonnegative), the merge step
classifies the empty trajectory as a duplicate of the first accepted
trajectory and leaves the result list unchanged.  (If the empty trajectory
is processed while the result list is still empty, it is accepted as an
entry, contrary to the claim.) -/
theorem c10_empty_trajectory_duplicate :
    (∀ t : Traj, calculateTrajectoriesDistanceHausdorff [] t = 0) ∧
    (∀ t : Traj, calculateTrajectoriesDistanceHausdorff t t = 0) ∧
    (∀ (fill : FillFn) (maxov bias : ℚ), 0 ≤ bias → ∀ (f : Traj) (fs : List Traj),
      mergeStep (mergeCriteria fill maxov true bias) (f :: fs) [] = f :: fs) := by
  refine ⟨?_, ?_, ?_⟩
  · intro t
    unfold calculateTrajectoriesDistanceHausdorff
    rw [if_pos (Or.inl rfl)]
  · intro t
    unfold calculateTrajectoriesDistanceHausdorff
    by_cases ht : t = []
    · rw [if_pos (Or.inl ht)]
    · rw [if_neg (by simp [ht])]
      dsimp only
      have hptsne : t.map (fun p => ((p.1 : ℚ), (p.2.1 : ℚ))) ≠ [] := by simp [ht]
      have hmin0 : ∀ p ∈ t.map (fun pp => ((pp.1 : ℚ), (pp.2.1 : ℚ))),
          min1 ((t.map (fun pp => ((pp.1 : ℚ), (pp.2.1 : ℚ)))).map
            (fun q => ptDist p q)) = 0 := by
        intro p hp
        apply le_antisymm
        · exact (ptDist_self p) ▸ min1_le (List.mem_map.mpr ⟨p, hp, rfl⟩)
        · have hne : (t.map (fun pp => ((pp.1 : ℚ), (pp.2.1 : ℚ)))).map
              (fun q => ptDist p q) ≠ [] := by simp [ht]
          obtain ⟨q, _, heq⟩ := List.mem_map.mp (min1_mem hne)
          rw [← heq]
          exact ratSqrt_nonneg _
      have hrow : max1 ((t.map (fun pp => ((pp.1 : ℚ), (pp.2.1 : ℚ)))).map (fun p =>
          min1 ((t.map (fun pp => ((pp.1 : ℚ), (pp.2.1 : ℚ)))).map
            (fun q => ptDist p q)))) = 0 := by
        have hne : (t.map (fun pp => ((pp.1 : ℚ), (pp.2.1 : ℚ)))).map (fun p =>
            min1 ((t.map (fun pp => ((pp.1 : ℚ), (pp.2.1 : ℚ)))).map
              (fun q => ptDist p q))) ≠ [] := by simp [ht]
        obtain ⟨p, hp, heq⟩ := List.mem_map.mp (max1_mem hne)
        rw [← heq]
        exact hmin0 p hp
      have hcol : max1 ((t.map (fun pp => ((pp.1 : ℚ), (pp.2.1 : ℚ)))).map (fun q =>
          min1 ((t.map (fun pp => ((pp.1 : ℚ), (pp.2.1 : ℚ)))).map
            (fun p => ptDist p q)))) = 0 := by
        have hne : (t.map (fun pp => ((pp.1 : ℚ), (pp.2.1 : ℚ)))).map (fun q =>
            min1 ((t.map (fun pp => ((pp.1 : ℚ), (pp.2.1 : ℚ)))).map
              (fun p => ptDist p q))) ≠ [] := by simp [ht]
        obtain ⟨q, hq, heq⟩ := List.mem_map.mp (max1_mem hne)
        rw [← heq]
        apply le_antisymm
        · exact (ptDist_self q) ▸ min1_le (List.mem_map.mpr ⟨q, hq, rfl⟩)
        · have hne2 : (t.map (fun pp => ((pp.1 : ℚ), (pp.2.1 : ℚ)))).map
              (fun p => ptDist p q) ≠ [] := by simp [ht]
          obtain ⟨p, _, heq2⟩ := List.mem_map.mp (min1_mem hne2)
          rw [← heq2]
          exact ratSqrt_nonneg _
      rw [hrow, hcol]
      exact max_self 0
  · intro fill maxov bias hb f fs
    unfold mergeStep
    have hcrit : mergeCriteria fill maxov true bias [] f = true := by
      unfold mergeCriteria
      rw [if_pos rfl]
      have h0 : calculateTrajectoriesDistanceHausdorff [] f = 0 := by
        unfold calculateTrajectoriesDistanceHausdorff
        rw [if_pos (Or.inl rfl)]
      rw [h0]
      exact decide_eq_true hb
    rw [List.find?_cons_of_pos _ hcrit]
    dsimp only
    rw [if_neg (by simp)]

/-- C10 witness: the merge step with the default bias keeps the singleton
result list unchanged when the empty trajectory is processed. -/
theorem c10_empty_trajectory_duplicate_witness :
    mergeStep (mergeCriteria vertexFill (3/4) true 10) [trajA] [] = [trajA] :=
  c10_empty_trajectory_duplicate.2.2 vertexFill (3/4) 10 (by norm_num) trajA []

/-- C10 counterexample: an empty trajectory processed while the result list
is empty is accepted and kept as a separate entry, so it is not always
classified as a duplicate. -/
theorem c10_claim_counterexample :
    combineTrajectories vertexFill [] [[]] (3/4) true 10 = [[]] := by
  with_unfolding_all rfl

/-! Claim C4: failure modes of the trajectory query interface. -/

/-- C4 (corrected): for every spline collaborator, a trajectory of at least
four points yields (0, -1) - not (y, -1) - when x lies outside the
centerline's x-range; it yields (y, -1), y the centerline spline's value at
x, when x lies inside the centerline range but outside the x-range of
either deduplicated skin half, or when the skin spline fitting emits a
numerical warning.  None of these cases raises. -/
theorem c4_query_failure_modes (cs : List (ℤ × ℤ) → ℚ → ℚ)
    (sf : List (ℤ × ℤ) → (ℚ → ℚ) × Bool) (traj : Traj) (x : ℚ)
    (hlen : 4 ≤ traj.length) :
    (¬(min1 (centerXs traj) ≤ x ∧ x ≤ max1 (centerXs traj)) →
      getYandWofTrajectory cs sf traj x = (0, -1)) ∧
    ((min1 (centerXs traj) ≤ x ∧ x ≤ max1 (centerXs traj)) →
      (getSkinOfTrajectory traj).length % 2 = 0 →
      (¬(min1 (skinXs (skinLeftOf traj)) ≤ x ∧ x ≤ max1 (skinXs (skinLeftOf traj))) ∨
        ¬(min1 (skinXs (skinRightOf traj)) ≤ x ∧ x ≤ max1 (skinXs (skinRightOf traj)))) →
      getYandWofTrajectory cs sf traj x = (cs (coordsOf traj) x, -1)) ∧
    ((min1 (centerXs traj) ≤ x ∧ x ≤ max1 (centerXs traj)) →
      (getSkinOfTrajectory traj).length % 2 = 0 →
      (min1 (skinXs (skinLeftOf traj)) ≤ x ∧ x ≤ max1 (skinXs (skinLeftOf traj))) →
      (min1 (skinXs (skinRightOf traj)) ≤ x ∧ x ≤ max1 (skinXs (skinRightOf traj))) →
      ((sf (sortPairsByFst (skinLeftOf traj))).2 = true ∨
        (sf (sortPairsByFst (skinRightOf traj))).2 = true) →
      getYandWofTrajectory cs sf traj x = (cs (coordsOf traj) x, -1)) := by
  refine ⟨fun hout => ?_, fun hin heven hskinout => ?_, fun hin heven hl hr hwarn => ?_⟩
  · unfold getYandWofTrajectory
    rw [if_neg (by omega), if_pos hout]
  · unfold getYandWofTrajectory
    rw [if_neg (by omega), if_neg (not_not_intro hin), if_neg (by simp [heven]),
      if_pos hskinout]
  · unfold getYandWofTrajectory
    rw [if_neg (by omega), if_neg (not_not_intro hin), if_neg (by simp [heven]),
      if_neg (by push_neg; exact ⟨hl, hr⟩), if_pos hwarn]

set_option maxRecDepth 1000000 in
/-- C4 witness: on the horizontal four-point trajectory, x = 5/2 lies inside
the centerline range but beyond the truncated left skin half (which loses
its last point), giving (42, -1) for the constant-42 centerline spline; and
at x = 1 a warning-emitting skin fit also gives (42, -1). -/
theorem c4_query_failure_modes_witness :
    getYandWofTrajectory centerSpline42 skinFitOk trajQ (5/2) = (42, -1) ∧
      getYandWofTrajectory centerSpline42 skinFitWarn trajQ 1 = (42, -1) :=
  ⟨(c4_query_failure_modes centerSpline42 skinFitOk trajQ (5/2) (by decide)).2.1
      (of_decide_eq_true (by with_unfolding_all rfl))
      (of_decide_eq_true (by with_unfolding_all rfl))
      (Or.inl (of_decide_eq_true (by with_unfolding_all rfl))),
    (c4_query_failure_modes centerSpline42 skinFitWarn trajQ 1 (by decide)).2.2
      (of_decide_eq_true (by with_unfolding_all rfl))
      (of_decide_eq_true (by with_unfolding_all rfl))
      (of_decide_eq_true (by with_unfolding_all rfl))
      (of_decide_eq_true (by with_unfolding_all rfl))
      (Or.inl rfl)⟩

set_option maxRecDepth 1000000 in
/-- C4 counterexample: for the collinear trajectory y = x on 0..3 and x = 5
(outside the domain of all three splines), the code returns (0, -1), while
the claim demands (y, -1) with y the centerline spline's value 3 (the ext=3
clamp of the scipy interpolating spline, reproduced by centerSpline3). -/
theorem c4_claim_counterexample :
    getYandWofTrajectory centerSpline3 skinFitOk trajDiag 5 = (0, -1) ∧
      ((0 : ℚ), (-1 : ℚ)) ≠ (centerSpline3 (coordsOf trajDiag) 5, -1) := by
  constructor
  · with_unfolding_all rfl
  · intro h
    have := congrArg Prod.fst h
    norm_num [centerSpline3] at this

end FFE
